import Mathlib

/-!
Verification development for the git synchronization core of the
All_In_One_Web repository (src/src/utils/gitSync.ts).

The TypeScript client is shallowly embedded: pure helpers become Lean
functions, the mutable client state (hash cache, local storage, remote
repository) becomes explicit state records, and every network call goes
through a small operational model of the HTTP server in which an oracle
decides, request by request, whether the server accepts the request
(applying its documented effect) or rejects it (leaving its state
untouched).  External platform primitives are treated as follows:

* `btoa(unescape(encodeURIComponent s))` / `decodeURIComponent(escape(atob s))`
  are modelled as real base64 over real UTF-8 bytes (`encodeContent` /
  `decodeContent` below), so that losslessness is a theorem, not an axiom;
* `JSON.stringify(v, null, 2)` / `JSON.parse` are modelled by an executable
  printer and parser over a JSON value type (numbers restricted to
  integers; IEEE float formatting is outside the model);
* `CryptoJS.MD5` and `CryptoJS.AES` are opaque external primitives: the
  code uses no property of them beyond being functions, so they are
  ordinary function parameters of the definitions.
-/

namespace GitSync

/-! ## Association lists (JS `Map` / keyed object state) -/

/-- Lookup in an association list, modelling `Map.get` / object indexing. -/
def aget {α : Type} : List (String × α) → String → Option α
  | [], _ => none
  | (k, v) :: t, key => if k = key then some v else aget t key

/-- Insert-or-replace in an association list, modelling `Map.set`. -/
def aset {α : Type} : List (String × α) → String → α → List (String × α)
  | [], key, v => [(key, v)]
  | (k, w) :: t, key, v => if k = key then (key, v) :: t else (k, w) :: aset t key v

/-- Removal from an association list, modelling `Map.delete`. -/
def adel {α : Type} : List (String × α) → String → List (String × α)
  | [], _ => []
  | (k, w) :: t, key => if k = key then adel t key else (k, w) :: adel t key

theorem aget_aset_self {α : Type} (l : List (String × α)) (k : String) (v : α) :
    aget (aset l k v) k = some v := by
  induction l with
  | nil => simp [aget, aset]
  | cons h t ih =>
    obtain ⟨k', w⟩ := h
    by_cases hk : k' = k
    · simp [aget, aset, hk]
    · simp [aget, aset, hk, ih]

theorem aget_aset_ne {α : Type} (l : List (String × α)) (k k' : String) (v : α)
    (h : k' ≠ k) : aget (aset l k v) k' = aget l k' := by
  induction l with
  | nil => simp [aget, aset, h, Ne.symm h]
  | cons hd t ih =>
    obtain ⟨k₀, w⟩ := hd
    by_cases hk : k₀ = k
    · subst hk
      simp [aget, aset, h, Ne.symm h]
    · by_cases hk' : k₀ = k'
      · simp [aget, aset, hk, hk', h, Ne.symm h]
      · simp [aget, aset, hk, hk', ih]

/-! ## JS string falsiness helpers -/

/-- JS falsiness of an optional string (`!x` is true for `undefined` and `""`). -/
def jsFalsyStr : Option String → Bool
  | none => true
  | some s => s = ""

/-- JS `x || d` on an optional string: the default wins when `x` is
`undefined` or the empty string. -/
def jsOr (x : Option String) (d : String) : String :=
  match x with
  | none => d
  | some s => if s = "" then d else s

/-! ## UTF-8 (the `unescape(encodeURIComponent ·)` byte expansion) -/

/-- UTF-8 bytes of one unicode scalar value. -/
def utf8EncodeChar (c : Char) : List Nat :=
  let n := c.toNat
  if n < 0x80 then [n]
  else if n < 0x800 then [0xC0 + n / 64, 0x80 + n % 64]
  else if n < 0x10000 then [0xE0 + n / 4096, 0x80 + n / 64 % 64, 0x80 + n % 64]
  else [0xF0 + n / 262144, 0x80 + n / 4096 % 64, 0x80 + n / 64 % 64, 0x80 + n % 64]

/-- UTF-8 bytes of a string. -/
def strToBytes (s : String) : List Nat :=
  (s.data.map utf8EncodeChar).flatten

/-- Continuation-byte test. -/
def isCont (b : Nat) : Bool := 0x80 ≤ b && b < 0xC0

/-- Decode one UTF-8 encoded scalar value from the front of a byte list;
`none` on malformed input (the JS `decodeURIComponent(escape ·)` composite
throws there, which the client catches). -/
def utf8Step : List Nat → Option (Char × List Nat)
  | [] => none
  | b :: bs =>
    if b < 0x80 then some (Char.ofNat b, bs)
    else if b < 0xC0 then none
    else if b < 0xE0 then
      match bs with
      | b2 :: bs2 =>
        if isCont b2 then
          let n := (b - 0xC0) * 64 + (b2 - 0x80)
          if n < 0x80 then none
          else some (Char.ofNat n, bs2)
        else none
      | [] => none
    else if b < 0xF0 then
      match bs with
      | b2 :: b3 :: bs3 =>
        if isCont b2 && isCont b3 then
          let n := (b - 0xE0) * 4096 + (b2 - 0x80) * 64 + (b3 - 0x80)
          if n < 0x800 then none
          else if 0xD800 ≤ n ∧ n < 0xE000 then none
          else some (Char.ofNat n, bs3)
        else none
      | _ => none
    else if b < 0xF5 then
      match bs with
      | b2 :: b3 :: b4 :: bs4 =>
        if isCont b2 && isCont b3 && isCont b4 then
          let n := (b - 0xF0) * 262144 + (b2 - 0x80) * 4096 + (b3 - 0x80) * 64 + (b4 - 0x80)
          if n < 0x10000 then none
          else if 0x110000 ≤ n then none
          else some (Char.ofNat n, bs4)
        else none
      | _ => none
    else none

/-- Fuelled UTF-8 decoding loop; each step consumes at least one byte, so
fuel equal to the byte count always suffices. -/
def utf8DecodeF : Nat → List Nat → Option (List Char)
  | _, [] => some []
  | 0, _ :: _ => none
  | fuel + 1, b :: bs =>
    match utf8Step (b :: bs) with
    | some (c, rest) => (utf8DecodeF fuel rest).map (fun cs => c :: cs)
    | none => none

/-- UTF-8 decoding of a whole byte list. -/
def utf8Decode (bs : List Nat) : Option (List Char) :=
  utf8DecodeF bs.length bs

theorem charOfNat_toNat (c : Char) : Char.ofNat c.toNat = c := by
  have hv : c.toNat.isValidChar := c.valid
  rw [Char.ofNat, dif_pos hv]
  apply Char.ext
  apply UInt32.ext
  simp [Char.ofNatAux]
  rfl

theorem char_toNat_lt (c : Char) : c.toNat < 0x110000 := by
  have h := c.valid
  simp only [Char.toNat]
  rcases h with h | ⟨_, h⟩ <;> omega

theorem char_not_surrogate (c : Char) : c.toNat < 0xD800 ∨ 0xDFFF < c.toNat := by
  have h := c.valid
  simp only [Char.toNat]
  rcases h with h | ⟨h, _⟩
  · exact Or.inl h
  · exact Or.inr h

/-- `utf8Step` undoes `utf8EncodeChar` at the front of any byte list. -/
theorem utf8Step_encode (c : Char) (bs : List Nat) :
    utf8Step (utf8EncodeChar c ++ bs) = some (c, bs) := by
  have hvlt := char_toNat_lt c
  by_cases h1 : c.toNat < 0x80
  · have henc : utf8EncodeChar c = [c.toNat] := by
      unfold utf8EncodeChar; simp only [if_pos h1]
    rw [henc, List.singleton_append, utf8Step.eq_def]
    simp [h1, charOfNat_toNat]
  · by_cases h2 : c.toNat < 0x800
    · have henc : utf8EncodeChar c = [0xC0 + c.toNat / 64, 0x80 + c.toNat % 64] := by
        unfold utf8EncodeChar; simp only [if_neg h1, if_pos h2]
      have e1 : ¬ (0xC0 + c.toNat / 64 < 0x80) := by omega
      have e2 : ¬ (0xC0 + c.toNat / 64 < 0xC0) := by omega
      have e3 : 0xC0 + c.toNat / 64 < 0xE0 := by omega
      have e4 : isCont (0x80 + c.toNat % 64) = true := by simp [isCont]; omega
      have e5 : (0xC0 + c.toNat / 64 - 0xC0) * 64 + (0x80 + c.toNat % 64 - 0x80) = c.toNat := by
        omega
      rw [henc, List.cons_append, List.singleton_append, utf8Step.eq_def]
      simp only [if_neg e1, if_neg e2, if_pos e3, e4, if_pos rfl, e5, if_neg h1,
        charOfNat_toNat, if_true]
    · by_cases h3 : c.toNat < 0x10000
      · have hs := char_not_surrogate c
        have henc : utf8EncodeChar c
            = [0xE0 + c.toNat / 4096, 0x80 + c.toNat / 64 % 64, 0x80 + c.toNat % 64] := by
          unfold utf8EncodeChar; simp only [if_neg h1, if_neg h2, if_pos h3]
        have e1 : ¬ (0xE0 + c.toNat / 4096 < 0x80) := by omega
        have e2 : ¬ (0xE0 + c.toNat / 4096 < 0xC0) := by omega
        have e3 : ¬ (0xE0 + c.toNat / 4096 < 0xE0) := by omega
        have e3b : 0xE0 + c.toNat / 4096 < 0xF0 := by omega
        have e4 : (isCont (0x80 + c.toNat / 64 % 64) && isCont (0x80 + c.toNat % 64)) = true := by
          simp [isCont]; omega
        have e5 : (0xE0 + c.toNat / 4096 - 0xE0) * 4096 + (0x80 + c.toNat / 64 % 64 - 0x80) * 64
            + (0x80 + c.toNat % 64 - 0x80) = c.toNat := by omega
        have e6 : ¬ (c.toNat < 0x800) := h2
        have e7 : ¬ (0xD800 ≤ c.toNat ∧ c.toNat < 0xE000) := by omega
        rw [henc, List.cons_append, List.cons_append, List.singleton_append, utf8Step.eq_def]
        simp only [if_neg e1, if_neg e2, if_neg e3, if_pos e3b, e4, if_pos rfl, e5,
          if_neg e6, if_neg e7, charOfNat_toNat, if_true]
      · have henc : utf8EncodeChar c = [0xF0 + c.toNat / 262144, 0x80 + c.toNat / 4096 % 64,
            0x80 + c.toNat / 64 % 64, 0x80 + c.toNat % 64] := by
          unfold utf8EncodeChar; simp only [if_neg h1, if_neg h2, if_neg h3]
        have e1 : ¬ (0xF0 + c.toNat / 262144 < 0x80) := by omega
        have e2 : ¬ (0xF0 + c.toNat / 262144 < 0xC0) := by omega
        have e3 : ¬ (0xF0 + c.toNat / 262144 < 0xE0) := by omega
        have e3b : ¬ (0xF0 + c.toNat / 262144 < 0xF0) := by omega
        have e3c : 0xF0 + c.toNat / 262144 < 0xF5 := by omega
        have e4 : (isCont (0x80 + c.toNat / 4096 % 64) && isCont (0x80 + c.toNat / 64 % 64)
            && isCont (0x80 + c.toNat % 64)) = true := by
          simp [isCont]; omega
        have e5 : (0xF0 + c.toNat / 262144 - 0xF0) * 262144
            + (0x80 + c.toNat / 4096 % 64 - 0x80) * 4096
            + (0x80 + c.toNat / 64 % 64 - 0x80) * 64 + (0x80 + c.toNat % 64 - 0x80) = c.toNat := by
          omega
        have e6 : ¬ (c.toNat < 0x10000) := h3
        have e7 : ¬ (0x110000 ≤ c.toNat) := by omega
        rw [henc, List.cons_append, List.cons_append, List.cons_append, List.singleton_append,
          utf8Step.eq_def]
        simp only [if_neg e1, if_neg e2, if_neg e3, if_neg e3b, if_pos e3c, e4, if_pos rfl, e5,
          if_neg e6, if_neg e7, charOfNat_toNat, if_true]

theorem utf8EncodeChar_ne_nil (c : Char) : utf8EncodeChar c ≠ [] := by
  unfold utf8EncodeChar
  by_cases h1 : c.toNat < 0x80
  · simp [h1]
  · by_cases h2 : c.toNat < 0x800
    · simp [h1, h2]
    · by_cases h3 : c.toNat < 0x10000 <;> simp [h1, h2, h3]

/-- Fuelled round trip: any fuel at least the number of characters works. -/
theorem utf8DecodeF_encode (cs : List Char) (bs : List Nat) (tail : List Char)
    (fuel : Nat) (hfuel : cs.length ≤ fuel) (hbs : utf8DecodeF (fuel - cs.length) bs = some tail) :
    utf8DecodeF fuel ((cs.map utf8EncodeChar).flatten ++ bs) = some (cs ++ tail) := by
  induction cs generalizing fuel with
  | nil => simpa using hbs
  | cons c t ih =>
    match fuel, hfuel with
    | fuel + 1, hfuel =>
      have hne : utf8EncodeChar c ++ ((t.map utf8EncodeChar).flatten ++ bs) ≠ [] := by
        cases hgone : utf8EncodeChar c with
        | nil => exact absurd hgone (utf8EncodeChar_ne_nil c)
        | cons x xs => simp
      simp only [List.map_cons, List.flatten_cons, List.append_assoc]
      have hstep := utf8Step_encode c ((t.map utf8EncodeChar).flatten ++ bs)
      cases hl : (utf8EncodeChar c ++ ((t.map utf8EncodeChar).flatten ++ bs)) with
      | nil => exact absurd hl hne
      | cons x xs =>
        rw [← hl]
        have ht : utf8DecodeF fuel ((t.map utf8EncodeChar).flatten ++ bs) = some (t ++ tail) := by
          apply ih
          · simpa using Nat.le_of_succ_le_succ hfuel
          · simpa [Nat.succ_sub_succ] using hbs
        calc utf8DecodeF (fuel + 1) (utf8EncodeChar c ++ ((t.map utf8EncodeChar).flatten ++ bs))
            = (utf8DecodeF fuel ((t.map utf8EncodeChar).flatten ++ bs)).map (fun cs => c :: cs) := by
              rw [hl, utf8DecodeF, ← hl, hstep]
          _ = some (c :: (t ++ tail)) := by rw [ht]; rfl

theorem length_le_flatten_encode (cs : List Char) :
    cs.length ≤ ((cs.map utf8EncodeChar).flatten).length := by
  induction cs with
  | nil => simp
  | cons c t ih =>
    simp only [List.map_cons, List.flatten_cons, List.length_append, List.length_cons]
    have : 1 ≤ (utf8EncodeChar c).length := by
      cases hgone : utf8EncodeChar c with
      | nil => exact absurd hgone (utf8EncodeChar_ne_nil c)
      | cons x xs => simp
    omega

/-- UTF-8 round trip: decoding the encoding of any string of unicode
scalar values gives the string back. -/
theorem utf8_roundtrip (cs : List Char) :
    utf8Decode ((cs.map utf8EncodeChar).flatten) = some cs := by
  unfold utf8Decode
  have h := utf8DecodeF_encode cs [] [] ((cs.map utf8EncodeChar).flatten).length
    (length_le_flatten_encode cs) (by cases h : ((cs.map utf8EncodeChar).flatten).length - cs.length <;> rfl)
  simpa using h

/-! ## Base64 (JS `btoa` / `atob`) -/

/-- The base64 alphabet. -/
def b64Alphabet : List Char :=
  "ABCDEFGHIJKLMNOPQRSTUVWXYZabcdefghijklmnopqrstuvwxyz0123456789+/".data

def b64Char (n : Nat) : Char := b64Alphabet.getD n 'A'

def b64Val (c : Char) : Option Nat := b64Alphabet.findIdx? (fun x => x = c)

def base64Encode : List Nat → List Char
  | [] => []
  | [b1] => [b64Char (b1 / 4), b64Char (b1 % 4 * 16), '=', '=']
  | [b1, b2] => [b64Char (b1 / 4), b64Char (b1 % 4 * 16 + b2 / 16), b64Char (b2 % 16 * 4), '=']
  | b1 :: b2 :: b3 :: rest =>
    b64Char (b1 / 4) :: b64Char (b1 % 4 * 16 + b2 / 16) :: b64Char (b2 % 16 * 4 + b3 / 64)
      :: b64Char (b3 % 64) :: base64Encode rest

def b64DecodeQuad (c1 c2 c3 c4 : Char) : Option (List Nat) :=
  match b64Val c1, b64Val c2 with
  | some v1, some v2 =>
    if c4 = '=' then
      if c3 = '=' then some [v1 * 4 + v2 / 16]
      else
        match b64Val c3 with
        | some v3 => some [v1 * 4 + v2 / 16, v2 % 16 * 16 + v3 / 4]
        | none => none
    else
      match b64Val c3, b64Val c4 with
      | some v3, some v4 =>
        some [v1 * 4 + v2 / 16, v2 % 16 * 16 + v3 / 4, v3 % 4 * 64 + v4]
      | _, _ => none
  | _, _ => none

def base64Decode : List Char → Option (List Nat)
  | [] => some []
  | c1 :: c2 :: c3 :: c4 :: rest =>
    if rest.isEmpty then b64DecodeQuad c1 c2 c3 c4
    else
      match b64Val c1, b64Val c2, b64Val c3, b64Val c4 with
      | some v1, some v2, some v3, some v4 =>
        (base64Decode rest).map
          (fun bs => (v1 * 4 + v2 / 16) :: (v2 % 16 * 16 + v3 / 4) :: (v3 % 4 * 64 + v4) :: bs)
      | _, _, _, _ => none
  | _ => none

theorem b64Val_b64Char (n : Nat) (h : n < 64) : b64Val (b64Char n) = some n := by
  have hall : ∀ m, m < 64 → b64Val (b64Char m) = some m := by decide
  exact hall n h

theorem b64Char_ne_pad (n : Nat) : b64Char n ≠ '=' := by
  by_cases h : n < 64
  · have hall : ∀ m, m < 64 → b64Char m ≠ '=' := by decide
    exact hall n h
  · have hlen : b64Alphabet.length = 64 := by decide
    have : b64Alphabet.length ≤ n := by omega
    rw [b64Char, List.getD_eq_default _ _ this]
    decide

theorem base64Encode_eq_nil_iff (l : List Nat) : base64Encode l = [] ↔ l = [] := by
  cases l with
  | nil => simp [base64Encode]
  | cons a t =>
    cases t with
    | nil => simp [base64Encode]
    | cons b t2 =>
      cases t2 with
      | nil => simp [base64Encode]
      | cons c t3 => simp [base64Encode]

theorem base64Encode_roundtrip (bs : List Nat) (h : ∀ b ∈ bs, b < 256) :
    base64Decode (base64Encode bs) = some bs := by
  induction bs using base64Encode.induct with
  | case1 => simp [base64Encode, base64Decode]
  | case2 b1 =>
    have hb1 : b1 < 256 := h b1 (by simp)
    have v1 : b64Val (b64Char (b1 / 4)) = some (b1 / 4) := b64Val_b64Char _ (by omega)
    have v2 : b64Val (b64Char (b1 % 4 * 16)) = some (b1 % 4 * 16) := b64Val_b64Char _ (by omega)
    have harith : b1 / 4 * 4 + b1 % 4 * 16 / 16 = b1 := by omega
    simp [base64Encode, base64Decode, b64DecodeQuad, v1, v2, harith]
    omega
  | case3 b1 b2 =>
    have hb1 : b1 < 256 := h b1 (by simp)
    have hb2 : b2 < 256 := h b2 (by simp)
    have v1 : b64Val (b64Char (b1 / 4)) = some (b1 / 4) := b64Val_b64Char _ (by omega)
    have v2 : b64Val (b64Char (b1 % 4 * 16 + b2 / 16)) = some (b1 % 4 * 16 + b2 / 16) :=
      b64Val_b64Char _ (by omega)
    have v3 : b64Val (b64Char (b2 % 16 * 4)) = some (b2 % 16 * 4) := b64Val_b64Char _ (by omega)
    have ha1 : b1 / 4 * 4 + (b1 % 4 * 16 + b2 / 16) / 16 = b1 := by omega
    have ha2 : (b1 % 4 * 16 + b2 / 16) % 16 * 16 + b2 % 16 * 4 / 4 = b2 := by omega
    simp [base64Encode, base64Decode, b64DecodeQuad, v1, v2, v3, b64Char_ne_pad, ha1, ha2]
    omega
  | case4 b1 b2 b3 rest ih =>
    have hb1 : b1 < 256 := h b1 (by simp)
    have hb2 : b2 < 256 := h b2 (by simp)
    have hb3 : b3 < 256 := h b3 (by simp)
    have hrest : ∀ b ∈ rest, b < 256 := fun b hb => h b (by simp [hb])
    have v1 : b64Val (b64Char (b1 / 4)) = some (b1 / 4) := b64Val_b64Char _ (by omega)
    have v2 : b64Val (b64Char (b1 % 4 * 16 + b2 / 16)) = some (b1 % 4 * 16 + b2 / 16) :=
      b64Val_b64Char _ (by omega)
    have v3 : b64Val (b64Char (b2 % 16 * 4 + b3 / 64)) = some (b2 % 16 * 4 + b3 / 64) :=
      b64Val_b64Char _ (by omega)
    have v4 : b64Val (b64Char (b3 % 64)) = some (b3 % 64) := b64Val_b64Char _ (by omega)
    have ha1 : b1 / 4 * 4 + (b1 % 4 * 16 + b2 / 16) / 16 = b1 := by omega
    have ha2 : (b1 % 4 * 16 + b2 / 16) % 16 * 16 + (b2 % 16 * 4 + b3 / 64) / 4 = b2 := by omega
    have ha3 : (b2 % 16 * 4 + b3 / 64) % 4 * 64 + b3 % 64 = b3 := by omega
    by_cases hnil : rest = []
    · subst hnil
      have hpad : b64Char (b3 % 64) ≠ '=' := b64Char_ne_pad _
      simp [base64Encode, base64Decode, b64DecodeQuad, v1, v2, v3, v4, hpad, ha1, ha2, ha3]
    · have henc : base64Encode rest ≠ [] := by
        rw [Ne, base64Encode_eq_nil_iff]; exact hnil
      have hspec := ih hrest
      rw [base64Encode, base64Decode.eq_def]
      simp only []
      cases hl : base64Encode rest with
      | nil => exact absurd hl henc
      | cons e es =>
        have hempty : (e :: es).isEmpty = false := rfl
        simp only [hempty, if_neg (by simp : ¬ (false = true)), v1, v2, v3, v4]
        rw [hl] at hspec
        simp [hspec, ha1, ha2, ha3]


/-! ## JSON values, printing and parsing (`JSON.stringify` / `JSON.parse`) -/


mutual
inductive Json where
  | null : Json
  | bool (b : Bool) : Json
  | num (n : Int) : Json
  | str (s : String) : Json
  | arr (xs : JsonArr) : Json
  | obj (fs : JsonObj) : Json
  deriving DecidableEq
inductive JsonArr where
  | nil : JsonArr
  | cons (hd : Json) (tl : JsonArr) : JsonArr
  deriving DecidableEq
inductive JsonObj where
  | nil : JsonObj
  | cons (key : String) (val : Json) (tl : JsonObj) : JsonObj
  deriving DecidableEq
end

def lbrace : Char := Char.ofNat 123
def rbrace : Char := Char.ofNat 125

def isWsChar (c : Char) : Bool := c = ' ' || c = '\n' || c = '\t' || c = '\r'

def hexDigit (n : Nat) : Char :=
  if n < 10 then Char.ofNat (48 + n) else Char.ofNat (87 + n)

def escapeChar (c : Char) : List Char :=
  if c = '"' then ['\\', '"']
  else if c = '\\' then ['\\', '\\']
  else if c = Char.ofNat 8 then ['\\', 'b']
  else if c = Char.ofNat 9 then ['\\', 't']
  else if c = Char.ofNat 10 then ['\\', 'n']
  else if c = Char.ofNat 12 then ['\\', 'f']
  else if c = Char.ofNat 13 then ['\\', 'r']
  else if c.toNat < 0x20 then
    ['\\', 'u', '0', '0', hexDigit (c.toNat / 16), hexDigit (c.toNat % 16)]
  else [c]

def escBody (s : String) : List Char := (s.data.map escapeChar).flatten

def quoteStr (s : String) : List Char := '"' :: escBody s ++ ['"']

def digitChar (d : Nat) : Char := Char.ofNat (48 + d)

def natToChars (n : Nat) : List Char :=
  if n = 0 then ['0'] else (Nat.digits 10 n).reverse.map digitChar

def intToChars : Int → List Char
  | Int.ofNat n => natToChars n
  | Int.negSucc m => '-' :: natToChars (m + 1)

def indent (lvl : Nat) : List Char := List.replicate (2 * lvl) ' '

mutual
/-- `JSON.stringify(v, null, 2)` at nesting level `lvl`, as a char list. -/
def printVal (lvl : Nat) : Json → List Char
  | .null => "null".data
  | .bool true => "true".data
  | .bool false => "false".data
  | .num n => intToChars n
  | .str s => quoteStr s
  | .arr .nil => ['[', ']']
  | .arr (.cons x t) =>
    '[' :: '\n' :: (printItems (lvl + 1) x t ++ '\n' :: (indent lvl ++ [']']))
  | .obj .nil => [lbrace, rbrace]
  | .obj (.cons k v t) =>
    lbrace :: '\n' :: (printFields (lvl + 1) k v t ++ '\n' :: (indent lvl ++ [rbrace]))
  termination_by v => sizeOf v
def printItems (lvl : Nat) (x : Json) : JsonArr → List Char
  | .nil => indent lvl ++ printVal lvl x
  | .cons y t => indent lvl ++ printVal lvl x ++ ',' :: '\n' :: printItems lvl y t
  termination_by t => 1 + sizeOf x + sizeOf t
def printFields (lvl : Nat) (k : String) (v : Json) : JsonObj → List Char
  | .nil => indent lvl ++ quoteStr k ++ ':' :: ' ' :: printVal lvl v
  | .cons k2 v2 t =>
    indent lvl ++ quoteStr k ++ ':' :: ' ' :: printVal lvl v ++ ',' :: '\n' :: printFields lvl k2 v2 t
  termination_by t => 1 + sizeOf v + sizeOf t
end

def stringifyPretty (v : Json) : String := String.mk (printVal 0 v)



/-! ## JSON parsing (`JSON.parse`) -/

def skipWs : List Char → List Char
  | [] => []
  | c :: rest => if isWsChar c then skipWs rest else c :: rest

def expectChars : List Char → List Char → Option (List Char)
  | [], cs => some cs
  | _ :: _, [] => none
  | p :: ps, c :: cs => if c = p then expectChars ps cs else none

def isDigitChar (c : Char) : Bool := 48 ≤ c.toNat && c.toNat ≤ 57

def hexVal (c : Char) : Option Nat :=
  if 48 ≤ c.toNat ∧ c.toNat ≤ 57 then some (c.toNat - 48)
  else if 97 ≤ c.toNat ∧ c.toNat ≤ 102 then some (c.toNat - 87)
  else if 65 ≤ c.toNat ∧ c.toNat ≤ 70 then some (c.toNat - 55)
  else none

/-- One step inside a JSON string body: either the closing quote or one
(possibly escaped) character. -/
inductive StrTok where
  | close (rest : List Char) : StrTok
  | ch (c : Char) (rest : List Char) : StrTok

def strTok : List Char → Option StrTok
  | [] => none
  | c :: rest =>
    if c = '"' then some (.close rest)
    else if c = '\\' then
      match rest with
      | [] => none
      | e :: rest2 =>
        if e = '"' then some (.ch '"' rest2)
        else if e = '\\' then some (.ch '\\' rest2)
        else if e = '/' then some (.ch '/' rest2)
        else if e = 'b' then some (.ch (Char.ofNat 8) rest2)
        else if e = 'f' then some (.ch (Char.ofNat 12) rest2)
        else if e = 'n' then some (.ch (Char.ofNat 10) rest2)
        else if e = 'r' then some (.ch (Char.ofNat 13) rest2)
        else if e = 't' then some (.ch (Char.ofNat 9) rest2)
        else if e = 'u' then
          match rest2 with
          | h1 :: h2 :: h3 :: h4 :: rest3 =>
            match hexVal h1, hexVal h2, hexVal h3, hexVal h4 with
            | some a, some b, some c5, some d =>
              some (.ch (Char.ofNat (a * 4096 + b * 256 + c5 * 16 + d)) rest3)
            | _, _, _, _ => none
          | _ => none
        else none
    else some (.ch c rest)

def parseStrBodyF : Nat → List Char → Option (List Char × List Char)
  | 0, _ => none
  | fuel + 1, cs =>
    match strTok cs with
    | some (.close rest) => some ([], rest)
    | some (.ch c rest) => (parseStrBodyF fuel rest).map (fun p => (c :: p.1, p.2))
    | none => none

/-- Body of a JSON string after the opening quote, up to and including the
closing quote. -/
def parseStrBody (cs : List Char) : Option (List Char × List Char) :=
  parseStrBodyF (cs.length + 1) cs

def takeDigits : List Char → List Char × List Char
  | [] => ([], [])
  | c :: rest =>
    if isDigitChar c then
      let p := takeDigits rest
      (c :: p.1, p.2)
    else ([], c :: rest)

def digitsToNat (ds : List Char) : Nat :=
  ds.foldl (fun acc c => acc * 10 + (c.toNat - 48)) 0

def parseNum : List Char → Option (Int × List Char)
  | [] => none
  | c :: rest =>
    if c = '-' then
      match takeDigits rest with
      | ([], _) => none
      | (ds, r) => some (- (digitsToNat ds : Int), r)
    else
      match takeDigits (c :: rest) with
      | ([], _) => none
      | (ds, r) => some ((digitsToNat ds : Int), r)

mutual
def parseVal : Nat → List Char → Option (Json × List Char)
  | 0, _ => none
  | fuel + 1, cs =>
    match skipWs cs with
    | [] => none
    | c :: rest =>
      if c = 'n' then (expectChars "ull".data rest).map (fun r => (Json.null, r))
      else if c = 't' then (expectChars "rue".data rest).map (fun r => (Json.bool true, r))
      else if c = 'f' then (expectChars "alse".data rest).map (fun r => (Json.bool false, r))
      else if c = '"' then (parseStrBody rest).map (fun p => (Json.str (String.mk p.1), p.2))
      else if c = '[' then
        match skipWs rest with
        | [] => none
        | c2 :: rest2 =>
          if c2 = ']' then some (Json.arr .nil, rest2)
          else (parseItems fuel (c2 :: rest2)).map (fun p => (Json.arr p.1, p.2))
      else if c = lbrace then
        match skipWs rest with
        | [] => none
        | c2 :: rest2 =>
          if c2 = rbrace then some (Json.obj .nil, rest2)
          else (parseFields fuel (c2 :: rest2)).map (fun p => (Json.obj p.1, p.2))
      else if c = '-' ∨ isDigitChar c then
        (parseNum (c :: rest)).map (fun p => (Json.num p.1, p.2))
      else none
def parseItems : Nat → List Char → Option (JsonArr × List Char)
  | 0, _ => none
  | fuel + 1, cs =>
    match parseVal fuel cs with
    | some (v, r) =>
      match skipWs r with
      | [] => none
      | c :: r2 =>
        if c = ',' then (parseItems fuel r2).map (fun p => (JsonArr.cons v p.1, p.2))
        else if c = ']' then some (JsonArr.cons v .nil, r2)
        else none
    | none => none
def parseFields : Nat → List Char → Option (JsonObj × List Char)
  | 0, _ => none
  | fuel + 1, cs =>
    match skipWs cs with
    | [] => none
    | c :: r =>
      if c = '"' then
        match parseStrBody r with
        | some (kcs, r2) =>
          match skipWs r2 with
          | [] => none
          | c2 :: r3 =>
            if c2 = ':' then
              match parseVal fuel r3 with
              | some (v, r4) =>
                match skipWs r4 with
                | [] => none
                | c3 :: r5 =>
                  if c3 = ',' then
                    (parseFields fuel r5).map (fun p => (JsonObj.cons (String.mk kcs) v p.1, p.2))
                  else if c3 = rbrace then some (JsonObj.cons (String.mk kcs) v .nil, r5)
                  else none
              | none => none
            else none
        | none => none
      else none
end

/-- `JSON.parse`: `none` models the thrown `SyntaxError`. -/
def parseJson (s : String) : Option Json :=
  match parseVal (s.data.length + 1) s.data with
  | some (v, rest) => if skipWs rest = [] then some v else none
  | none => none



/-! ## Print/parse round trip: auxiliary lemmas -/

theorem toNat_ofNat_small (n : Nat) (h : n < 0xD800) : (Char.ofNat n).toNat = n := by
  have hv : n.isValidChar := Or.inl h
  rw [Char.ofNat, dif_pos hv]
  simp [Char.ofNatAux, Char.toNat]
  rfl

theorem skipWs_cons_not_ws (c : Char) (rest : List Char) (h : isWsChar c = false) :
    skipWs (c :: rest) = c :: rest := by
  rw [skipWs, h]
  simp

theorem skipWs_append_ws (pre rest : List Char) (h : ∀ c ∈ pre, isWsChar c = true) :
    skipWs (pre ++ rest) = skipWs rest := by
  induction pre with
  | nil => simp
  | cons c t ih =>
    have hc : isWsChar c = true := h c (by simp)
    rw [List.cons_append, skipWs, hc]
    simp only [if_pos rfl]
    exact ih (fun x hx => h x (by simp [hx]))

theorem indent_all_ws (lvl : Nat) : ∀ c ∈ indent lvl, isWsChar c = true := by
  intro c hc
  rw [indent] at hc
  have := List.eq_of_mem_replicate hc
  subst this
  rfl

theorem skipWs_indent (lvl : Nat) (rest : List Char) :
    skipWs (indent lvl ++ rest) = skipWs rest :=
  skipWs_append_ws _ _ (indent_all_ws lvl)

theorem expectChars_self (p rest : List Char) : expectChars p (p ++ rest) = some rest := by
  induction p with
  | nil => rfl
  | cons c t ih => rw [List.cons_append, expectChars, if_pos rfl, ih]

theorem hexVal_hexDigit (n : Nat) (h : n < 16) : hexVal (hexDigit n) = some n := by
  have hall : ∀ m, m < 16 → hexVal (hexDigit m) = some m := by decide
  exact hall n h

theorem strTok_escape (c : Char) (rest : List Char) :
    strTok (escapeChar c ++ rest) = some (.ch c rest) := by
  by_cases h1 : c = '"'
  · subst h1; rfl
  · by_cases h2 : c = '\\'
    · subst h2; rfl
    · by_cases h3 : c = Char.ofNat 8
      · subst h3; rw [escapeChar]; simp only [if_neg h1, if_neg h2, if_pos rfl]; rfl
      · by_cases h4 : c = Char.ofNat 9
        · subst h4; rw [escapeChar]
          simp only [if_neg h1, if_neg h2, if_neg h3, if_pos rfl]; rfl
        · by_cases h5 : c = Char.ofNat 10
          · subst h5; rw [escapeChar]
            simp only [if_neg h1, if_neg h2, if_neg h3, if_neg h4, if_pos rfl]; rfl
          · by_cases h6 : c = Char.ofNat 12
            · subst h6; rw [escapeChar]
              simp only [if_neg h1, if_neg h2, if_neg h3, if_neg h4, if_neg h5, if_pos rfl]; rfl
            · by_cases h7 : c = Char.ofNat 13
              · subst h7; rw [escapeChar]
                simp only [if_neg h1, if_neg h2, if_neg h3, if_neg h4, if_neg h5, if_neg h6,
                  if_pos rfl]; rfl
              · by_cases h8 : c.toNat < 0x20
                · rw [escapeChar]
                  simp only [if_neg h1, if_neg h2, if_neg h3, if_neg h4, if_neg h5, if_neg h6,
                    if_neg h7, if_pos h8]
                  rw [strTok.eq_def]
                  have d1 : hexVal (hexDigit (c.toNat / 16)) = some (c.toNat / 16) :=
                    hexVal_hexDigit _ (by omega)
                  have d2 : hexVal (hexDigit (c.toNat % 16)) = some (c.toNat % 16) :=
                    hexVal_hexDigit _ (by omega)
                  simp only [List.cons_append]
                  norm_num
                  rw [d1, d2]
                  have : (0 : Nat) * 4096 + 0 * 256 + c.toNat / 16 * 16 + c.toNat % 16 = c.toNat := by
                    omega
                  simp [hexVal, this, charOfNat_toNat]
                  have h9 : c.toNat / 16 * 16 + c.toNat % 16 = c.toNat := by omega
                  rw [h9, charOfNat_toNat]
                · rw [escapeChar]
                  simp only [if_neg h1, if_neg h2, if_neg h3, if_neg h4, if_neg h5, if_neg h6,
                    if_neg h7, if_neg h8]
                  rw [List.singleton_append, strTok.eq_def]
                  simp only [if_neg h1, if_neg h2]

theorem escapeChar_ne_nil (c : Char) : escapeChar c ≠ [] := by
  rw [escapeChar]
  repeat' split
  all_goals simp

theorem parseStrBodyF_escape (cs : List Char) (rest : List Char) (fuel : Nat)
    (hfuel : cs.length < fuel) :
    parseStrBodyF fuel ((cs.map escapeChar).flatten ++ '"' :: rest) = some (cs, rest) := by
  induction cs generalizing fuel with
  | nil =>
    match fuel, hfuel with
    | fuel + 1, _ =>
      rw [parseStrBodyF]
      simp only [List.map_nil, List.flatten_nil, List.nil_append]
      rw [strTok.eq_def]; rfl
  | cons c t ih =>
    match fuel, hfuel with
    | fuel + 1, hfuel =>
      rw [parseStrBodyF]
      simp only [List.map_cons, List.flatten_cons, List.append_assoc]
      rw [strTok_escape]
      have hih := ih fuel (by simpa using Nat.lt_of_succ_lt_succ hfuel)
      simp [hih]

theorem escBody_length_ge (s : List Char) :
    s.length ≤ ((s.map escapeChar).flatten).length := by
  induction s with
  | nil => simp
  | cons c t ih =>
    simp only [List.map_cons, List.flatten_cons, List.length_append, List.length_cons]
    have : 1 ≤ (escapeChar c).length := by
      cases h : escapeChar c with
      | nil => exact absurd h (escapeChar_ne_nil c)
      | cons x xs => simp
    omega

theorem parseStrBody_escape (s : String) (rest : List Char) :
    parseStrBody (escBody s ++ '"' :: rest) = some (s.data, rest) := by
  rw [parseStrBody, escBody]
  apply parseStrBodyF_escape
  have := escBody_length_ge s.data
  simp only [List.length_append, List.length_cons]
  omega



theorem char_ne_of_toNat {a b : Char} (h : a.toNat ≠ b.toNat) : a ≠ b :=
  fun he => h (by rw [he])

theorem toNat_digitChar (d : Nat) (h : d < 10) : (digitChar d).toNat = 48 + d :=
  toNat_ofNat_small _ (by omega)

theorem isDigitChar_digitChar (d : Nat) (h : d < 10) : isDigitChar (digitChar d) = true := by
  simp [isDigitChar, toNat_digitChar d h]
  omega

/-- Safety of the trailing context after a printed number: parsing must not
swallow any further characters. -/
def numSafe : List Char → Prop
  | [] => True
  | c :: _ => isDigitChar c = false

theorem foldl_digits_map (ds : List Nat) (a : Nat) (h : ∀ d ∈ ds, d < 10) :
    (ds.map digitChar).foldl (fun acc c => acc * 10 + (c.toNat - 48)) a
      = ds.foldl (fun acc d => acc * 10 + d) a := by
  induction ds generalizing a with
  | nil => rfl
  | cons d t ih =>
    simp only [List.map_cons, List.foldl_cons]
    rw [toNat_digitChar d (h d (by simp))]
    have he : a * 10 + (48 + d - 48) = a * 10 + d := by omega
    rw [he, ih _ (fun x hx => h x (by simp [hx]))]

theorem foldr_eq_ofDigits (ds : List Nat) :
    ds.foldr (fun d acc => acc * 10 + d) 0 = Nat.ofDigits 10 ds := by
  induction ds with
  | nil => simp [Nat.ofDigits]
  | cons d t ih =>
    simp only [List.foldr_cons, Nat.ofDigits_cons, ih]
    omega

theorem digits_reverse_lt (n : Nat) : ∀ d ∈ (Nat.digits 10 n).reverse, d < 10 := by
  intro d hd
  rw [List.mem_reverse] at hd
  exact Nat.digits_lt_base (by norm_num) hd

theorem digitsToNat_natToChars (n : Nat) : digitsToNat (natToChars n) = n := by
  by_cases h0 : n = 0
  · subst h0; rfl
  · rw [natToChars, if_neg h0, digitsToNat]
    rw [foldl_digits_map _ _ (digits_reverse_lt n)]
    rw [List.foldl_reverse]
    have : (fun y x => (fun acc d => acc * 10 + d) x y) = (fun d acc => acc * 10 + d) := rfl
    rw [this, foldr_eq_ofDigits, Nat.ofDigits_digits]

theorem natToChars_ne_nil (n : Nat) : natToChars n ≠ [] := by
  rw [natToChars]
  by_cases h0 : n = 0
  · simp [h0]
  · simp only [if_neg h0]
    intro hcon
    have h2 : Nat.digits 10 n ≠ [] := Nat.digits_ne_nil_iff_ne_zero.mpr h0
    simp at hcon
    exact h2 hcon

theorem natToChars_all_digits (n : Nat) : ∀ c ∈ natToChars n, isDigitChar c = true := by
  intro c hc
  rw [natToChars] at hc
  by_cases h0 : n = 0
  · simp [h0] at hc
    subst hc
    rfl
  · simp only [if_neg h0, List.mem_map] at hc
    obtain ⟨d, hd, hdc⟩ := hc
    subst hdc
    exact isDigitChar_digitChar d (digits_reverse_lt n d hd)

theorem takeDigits_append (ds rest : List Char) (h : ∀ c ∈ ds, isDigitChar c = true)
    (hrest : numSafe rest) : takeDigits (ds ++ rest) = (ds, rest) := by
  induction ds with
  | nil =>
    cases rest with
    | nil => rfl
    | cons c t =>
      have : isDigitChar c = false := hrest
      rw [List.nil_append, takeDigits, this]
      simp
  | cons c t ih =>
    have hc : isDigitChar c = true := h c (by simp)
    rw [List.cons_append, takeDigits, hc]
    simp [ih (fun x hx => h x (by simp [hx]))]

theorem dash_toNat : ('-').toNat = 45 := rfl

theorem parseNum_intToChars (i : Int) (rest : List Char) (hrest : numSafe rest) :
    parseNum (intToChars i ++ rest) = some (i, rest) := by
  cases i with
  | ofNat n =>
    have hne := natToChars_ne_nil n
    have hdig := natToChars_all_digits n
    cases hn : natToChars n with
    | nil => exact absurd hn hne
    | cons c t =>
      have hc : isDigitChar c = true := hdig c (by rw [hn]; simp)
      have hcd : c ≠ '-' := by
        intro he
        rw [he] at hc
        exact absurd hc (by decide)
      show parseNum (intToChars (Int.ofNat n) ++ rest) = _
      rw [intToChars, hn, List.cons_append, parseNum, if_neg hcd]
      have htd : takeDigits ((c :: t) ++ rest) = (c :: t, rest) :=
        takeDigits_append _ _ (fun x hx => hdig x (by rw [hn]; exact hx)) hrest
      rw [List.cons_append] at htd
      rw [htd]
      have hval : digitsToNat (c :: t) = n := by
        rw [← hn, digitsToNat_natToChars]
      simp [hval]
  | negSucc m =>
    have hne := natToChars_ne_nil (m + 1)
    rw [intToChars, List.cons_append, parseNum, if_pos rfl]
    have htd : takeDigits (natToChars (m + 1) ++ rest) = (natToChars (m + 1), rest) :=
      takeDigits_append _ _ (natToChars_all_digits (m + 1)) hrest
    rw [htd]
    cases hn : natToChars (m + 1) with
    | nil => exact absurd hn hne
    | cons c t =>
      have hval : digitsToNat (c :: t) = m + 1 := by
        rw [← hn, digitsToNat_natToChars]
      simp [hval, Int.negSucc_eq]



mutual
/-- Fuel needed by `parseVal` to parse a printed value. -/
def jweight : Json → Nat
  | .null => 1
  | .bool _ => 1
  | .num _ => 1
  | .str _ => 1
  | .arr .nil => 1
  | .arr (.cons x t) => 1 + jweightItems x t
  | .obj .nil => 1
  | .obj (.cons k v t) => 1 + jweightFields v t
  termination_by v => sizeOf v
def jweightItems (x : Json) : JsonArr → Nat
  | .nil => 1 + jweight x
  | .cons y t => 1 + jweight x + jweightItems y t
  termination_by t => 1 + sizeOf x + sizeOf t
def jweightFields (v : Json) : JsonObj → Nat
  | .nil => 1 + jweight v
  | .cons _ v2 t => 1 + jweight v + jweightFields v2 t
  termination_by t => 1 + sizeOf v + sizeOf t
end

theorem char_eq_of_toNat {a b : Char} (h : a.toNat = b.toNat) : a = b :=
  Char.ext (UInt32.ext h)

theorem numHead_facts (c : Char) (h : c.toNat = 45 ∨ (48 ≤ c.toNat ∧ c.toNat ≤ 57)) :
    isWsChar c = false ∧ c ≠ 'n' ∧ c ≠ 't' ∧ c ≠ 'f' ∧ c ≠ '"' ∧ c ≠ '[' ∧ c ≠ lbrace
      ∧ c ≠ ']' ∧ c ≠ rbrace ∧ (c = '-' ∨ isDigitChar c = true) := by
  have hsp : (' ').toNat = 32 := rfl
  have hnl : ('\n').toNat = 10 := rfl
  have htb : ('\t').toNat = 9 := rfl
  have hcr : ('\r').toNat = 13 := rfl
  refine ⟨?_, ?_, ?_, ?_, ?_, ?_, ?_, ?_, ?_, ?_⟩
  · simp only [isWsChar, Bool.or_eq_false_iff, decide_eq_false_iff_not]
    refine ⟨⟨⟨?_, ?_⟩, ?_⟩, ?_⟩ <;> exact char_ne_of_toNat (by omega)
  · exact char_ne_of_toNat (by have : ('n').toNat = 110 := rfl; omega)
  · exact char_ne_of_toNat (by have : ('t').toNat = 116 := rfl; omega)
  · exact char_ne_of_toNat (by have : ('f').toNat = 102 := rfl; omega)
  · exact char_ne_of_toNat (by have : ('"').toNat = 34 := rfl; omega)
  · exact char_ne_of_toNat (by have : ('[').toNat = 91 := rfl; omega)
  · exact char_ne_of_toNat (by have : lbrace.toNat = 123 := rfl; omega)
  · exact char_ne_of_toNat (by have : (']').toNat = 93 := rfl; omega)
  · exact char_ne_of_toNat (by have : rbrace.toNat = 125 := rfl; omega)
  · rcases h with h | h
    · exact Or.inl (char_eq_of_toNat (by rw [h]; rfl))
    · exact Or.inr (by simp [isDigitChar]; omega)

theorem intToChars_head (i : Int) :
    ∃ c cs, intToChars i = c :: cs ∧ (c.toNat = 45 ∨ (48 ≤ c.toNat ∧ c.toNat ≤ 57)) := by
  cases i with
  | ofNat n =>
    cases hn : natToChars n with
    | nil => exact absurd hn (natToChars_ne_nil n)
    | cons c t =>
      refine ⟨c, t, hn, Or.inr ?_⟩
      have := natToChars_all_digits n c (by rw [hn]; simp)
      simp [isDigitChar] at this
      omega
  | negSucc m => exact ⟨'-', _, rfl, Or.inl rfl⟩

theorem printVal_head (lvl : Nat) (v : Json) :
    ∃ c cs, printVal lvl v = c :: cs ∧ isWsChar c = false ∧ c ≠ ']' ∧ c ≠ rbrace := by
  cases v with
  | null =>
    refine ⟨'n', "ull".data, ?_, by decide, by decide, by decide⟩
    rw [printVal]
  | bool b =>
    cases b
    · refine ⟨'f', "alse".data, ?_, by decide, by decide, by decide⟩
      rw [printVal]
    · refine ⟨'t', "rue".data, ?_, by decide, by decide, by decide⟩
      rw [printVal]
  | num n =>
    obtain ⟨c, cs, hc, hn⟩ := intToChars_head n
    obtain ⟨hws, _, _, _, _, _, _, hne1, hne2, _⟩ := numHead_facts c hn
    exact ⟨c, cs, by rw [printVal, hc], hws, hne1, hne2⟩
  | str s =>
    refine ⟨'"', escBody s ++ ['"'], ?_, by decide, by decide, by decide⟩
    rw [printVal, quoteStr, List.cons_append]
  | arr xs =>
    cases xs with
    | nil =>
      refine ⟨'[', [']'], ?_, by decide, by decide, by decide⟩
      rw [printVal]
    | cons x t =>
      refine ⟨'[', '\n' :: (printItems (lvl + 1) x t ++ '\n' :: (indent lvl ++ [']'])), ?_,
        by decide, by decide, by decide⟩
      rw [printVal]
  | obj fs =>
    cases fs with
    | nil =>
      refine ⟨lbrace, [rbrace], ?_, by decide, by decide, by decide⟩
      rw [printVal]
    | cons k v t =>
      refine ⟨lbrace, '\n' :: (printFields (lvl + 1) k v t ++ '\n' :: (indent lvl ++ [rbrace])),
        ?_, by decide, by decide, by decide⟩
      rw [printVal]



theorem skipWs_cons_ws (c : Char) (r : List Char) (h : isWsChar c = true) :
    skipWs (c :: r) = skipWs r := by
  rw [skipWs, h]
  simp

theorem parseVal_ws (fuel : Nat) (pre cs : List Char) (h : ∀ c ∈ pre, isWsChar c = true) :
    parseVal fuel (pre ++ cs) = parseVal fuel cs := by
  cases fuel with
  | zero => rfl
  | succ f =>
    rw [parseVal]
    conv_rhs => rw [parseVal]
    rw [skipWs_append_ws pre cs h]

theorem parseItems_ws (fuel : Nat) (pre cs : List Char) (h : ∀ c ∈ pre, isWsChar c = true) :
    parseItems fuel (pre ++ cs) = parseItems fuel cs := by
  cases fuel with
  | zero => rfl
  | succ f =>
    rw [parseItems]
    conv_rhs => rw [parseItems]
    rw [parseVal_ws f pre cs h]

theorem parseFields_ws (fuel : Nat) (pre cs : List Char) (h : ∀ c ∈ pre, isWsChar c = true) :
    parseFields fuel (pre ++ cs) = parseFields fuel cs := by
  cases fuel with
  | zero => rfl
  | succ f =>
    rw [parseFields]
    conv_rhs => rw [parseFields]
    rw [skipWs_append_ws pre cs h]

theorem parseVal_print_null (lvl : Nat) (rest : List Char) (fuel : Nat) :
    parseVal (fuel + 1) (printVal lvl Json.null ++ rest) = some (Json.null, rest) := by
  rw [printVal]
  have h : ("null".data : List Char) = 'n' :: "ull".data := rfl
  rw [h, List.cons_append, parseVal]
  rw [skipWs_cons_not_ws _ _ (by decide)]
  simp only [if_pos rfl]
  rw [expectChars_self]
  rfl


theorem parseVal_print_bool (b : Bool) (lvl : Nat) (rest : List Char) (fuel : Nat) :
    parseVal (fuel + 1) (printVal lvl (Json.bool b) ++ rest) = some (Json.bool b, rest) := by
  cases b
  · rw [printVal]
    have h : ("false".data : List Char) = 'f' :: "alse".data := rfl
    rw [h, List.cons_append, parseVal]
    rw [skipWs_cons_not_ws _ _ (by decide)]
    simp [expectChars_self, expectChars]
  · rw [printVal]
    have h : ("true".data : List Char) = 't' :: "rue".data := rfl
    rw [h, List.cons_append, parseVal]
    rw [skipWs_cons_not_ws _ _ (by decide)]
    simp [expectChars_self, expectChars]

theorem parseVal_print_num (n : Int) (lvl : Nat) (rest : List Char) (fuel : Nat)
    (hsafe : numSafe rest) :
    parseVal (fuel + 1) (printVal lvl (Json.num n) ++ rest) = some (Json.num n, rest) := by
  rw [printVal]
  obtain ⟨c, cs, hc, hfacts⟩ := intToChars_head n
  obtain ⟨hws, hn, ht, hf, hq, hlb, hbr, _, _, hnum⟩ := numHead_facts c hfacts
  rw [hc, List.cons_append, parseVal]
  rw [skipWs_cons_not_ws _ _ hws]
  have hpn : parseNum (c :: (cs ++ rest)) = some (n, rest) := by
    rw [← List.cons_append, ← hc]
    exact parseNum_intToChars n rest hsafe
  simp [hn, ht, hf, hq, hlb, hbr, hnum, hpn]

theorem parseVal_print_str (s : String) (lvl : Nat) (rest : List Char) (fuel : Nat) :
    parseVal (fuel + 1) (printVal lvl (Json.str s) ++ rest) = some (Json.str s, rest) := by
  have hstep : printVal lvl (Json.str s) ++ rest = '"' :: (escBody s ++ '"' :: rest) := by
    rw [printVal, quoteStr]
    simp [List.append_assoc]
  rw [hstep, parseVal, skipWs_cons_not_ws _ _ (by decide)]
  simp [parseStrBody_escape]

/-- The context following one printed array item. -/
def itemsSep (lvl2 lvl : Nat) (t : JsonArr) (rest : List Char) : List Char :=
  match t with
  | .nil => '\n' :: (indent lvl ++ ']' :: rest)
  | .cons y t2 => ',' :: '\n' :: (printItems lvl2 y t2 ++ '\n' :: (indent lvl ++ ']' :: rest))

/-- The context following one printed object field. -/
def fieldsSep (lvl2 lvl : Nat) (t : JsonObj) (rest : List Char) : List Char :=
  match t with
  | .nil => '\n' :: (indent lvl ++ rbrace :: rest)
  | .cons k2 v2 t2 =>
    ',' :: '\n' :: (printFields lvl2 k2 v2 t2 ++ '\n' :: (indent lvl ++ rbrace :: rest))

theorem numSafe_itemsSep (lvl2 lvl : Nat) (t : JsonArr) (rest : List Char) :
    numSafe (itemsSep lvl2 lvl t rest) := by
  cases t with
  | nil => rw [itemsSep]; show isDigitChar '\n' = false; decide
  | cons y t2 => rw [itemsSep]; show isDigitChar ',' = false; decide

theorem numSafe_fieldsSep (lvl2 lvl : Nat) (t : JsonObj) (rest : List Char) :
    numSafe (fieldsSep lvl2 lvl t rest) := by
  cases t with
  | nil => rw [fieldsSep]; show isDigitChar '\n' = false; decide
  | cons k2 v2 t2 => rw [fieldsSep]; show isDigitChar ',' = false; decide

theorem printItems_decomp (lvl2 lvl : Nat) (x : Json) (t : JsonArr) (rest : List Char) :
    printItems lvl2 x t ++ '\n' :: (indent lvl ++ ']' :: rest)
      = indent lvl2 ++ (printVal lvl2 x ++ itemsSep lvl2 lvl t rest) := by
  cases t with
  | nil => rw [printItems, itemsSep]; simp [List.append_assoc]
  | cons y t2 => rw [printItems, itemsSep]; simp [List.append_assoc]

theorem printFields_decomp (lvl2 lvl : Nat) (k : String) (v : Json) (t : JsonObj)
    (rest : List Char) :
    printFields lvl2 k v t ++ '\n' :: (indent lvl ++ rbrace :: rest)
      = indent lvl2 ++ (quoteStr k ++ ':' :: ' ' :: printVal lvl2 v
          ++ fieldsSep lvl2 lvl t rest) := by
  cases t with
  | nil => rw [printFields, fieldsSep]; simp [List.append_assoc]
  | cons k2 v2 t2 => rw [printFields, fieldsSep]; simp [List.append_assoc]

theorem lbrace_ne_n : lbrace ≠ 'n' := by decide

theorem lbrace_ne_t : lbrace ≠ 't' := by decide

theorem lbrace_ne_f : lbrace ≠ 'f' := by decide

theorem lbrace_ne_q : lbrace ≠ '"' := by decide

theorem lbrace_ne_lbrack : lbrace ≠ '[' := by decide

theorem q_ne_rbrace : ('"' : Char) ≠ rbrace := by decide

theorem rbrace_ne_comma : rbrace ≠ ',' := by decide

theorem jweight_pos (v : Json) : 1 <= jweight v := by
  cases v with
  | null => rw [jweight]
  | bool b => rw [jweight]
  | num n => rw [jweight]
  | str s => rw [jweight]
  | arr xs => cases xs <;> rw [jweight] <;> omega
  | obj fs => cases fs <;> rw [jweight] <;> omega

theorem jweightItems_pos (x : Json) (t : JsonArr) : 1 <= jweightItems x t := by
  cases t <;> rw [jweightItems] <;> omega

theorem jweightFields_pos (v : Json) (t : JsonObj) : 1 <= jweightFields v t := by
  cases t <;> rw [jweightFields] <;> omega

theorem parse_print_all (fuel : Nat) :
    (∀ (v : Json) (lvl : Nat) (rest : List Char), jweight v ≤ fuel → numSafe rest →
      parseVal fuel (printVal lvl v ++ rest) = some (v, rest))
    ∧ (∀ (x : Json) (t : JsonArr) (lvl2 lvl : Nat) (rest : List Char),
      jweightItems x t ≤ fuel →
      parseItems fuel (printVal lvl2 x ++ itemsSep lvl2 lvl t rest)
        = some (JsonArr.cons x t, rest))
    ∧ (∀ (k : String) (v : Json) (t : JsonObj) (lvl2 lvl : Nat) (rest : List Char),
      jweightFields v t ≤ fuel →
      parseFields fuel (quoteStr k ++ ':' :: ' ' :: printVal lvl2 v
          ++ fieldsSep lvl2 lvl t rest)
        = some (JsonObj.cons k v t, rest)) := by
  induction fuel with
  | zero =>
    refine ⟨?_, ?_, ?_⟩
    · intro v lvl rest hfuel hsafe
      exact absurd hfuel (by have := jweight_pos v; omega)
    · intro x t lvl2 lvl rest hfuel
      exact absurd hfuel (by have := jweightItems_pos x t; omega)
    · intro k v t lvl2 lvl rest hfuel
      exact absurd hfuel (by have := jweightFields_pos v t; omega)
  | succ fuel ih =>
    obtain ⟨ihV, ihI, ihF⟩ := ih
    refine ⟨?_, ?_, ?_⟩
    · intro v lvl rest hfuel hsafe
      cases v with
      | null => exact parseVal_print_null lvl rest fuel
      | bool b => exact parseVal_print_bool b lvl rest fuel
      | num n => exact parseVal_print_num n lvl rest fuel hsafe
      | str s => exact parseVal_print_str s lvl rest fuel
      | arr xs =>
        cases xs with
        | nil =>
          rw [printVal]
          rw [show (['[', ']'] : List Char) ++ rest = '[' :: ']' :: rest from rfl]
          rw [parseVal, skipWs_cons_not_ws _ _ (by decide)]
          have h2 : skipWs (']' :: rest) = ']' :: rest := skipWs_cons_not_ws _ _ (by decide)
          simp [h2]
        | cons x t =>
          rw [printVal, List.cons_append, List.cons_append, parseVal]
          rw [skipWs_cons_not_ws _ _ (by decide)]
          have hassoc : (printItems (lvl + 1) x t ++ '\n' :: (indent lvl ++ [']'])) ++ rest
              = printItems (lvl + 1) x t ++ '\n' :: (indent lvl ++ ']' :: rest) := by
            simp [List.append_assoc]
          rw [hassoc, printItems_decomp]
          obtain ⟨c, cs, hc, hws, hne, _⟩ := printVal_head (lvl + 1) x
          have hskip : skipWs ('\n' :: (indent (lvl + 1)
                ++ (printVal (lvl + 1) x ++ itemsSep (lvl + 1) lvl t rest)))
              = c :: (cs ++ itemsSep (lvl + 1) lvl t rest) := by
            rw [skipWs_cons_ws _ _ (by decide), skipWs_indent, hc, List.cons_append,
              skipWs_cons_not_ws _ _ hws]
          have hitems : parseItems fuel (c :: (cs ++ itemsSep (lvl + 1) lvl t rest))
              = some (JsonArr.cons x t, rest) := by
            rw [← List.cons_append, ← hc]
            exact ihI x t (lvl + 1) lvl rest (by rw [jweight] at hfuel; omega)
          simp only [List.cons_append, List.append_assoc] at hskip hitems
          simp [hskip, hne, hitems]
      | obj fs =>
        cases fs with
        | nil =>
          rw [printVal]
          rw [show ([lbrace, rbrace] : List Char) ++ rest = lbrace :: rbrace :: rest from rfl]
          rw [parseVal, skipWs_cons_not_ws _ _ (by decide)]
          have h2 : skipWs (rbrace :: rest) = rbrace :: rest :=
            skipWs_cons_not_ws _ _ (by decide)
          simp [h2, lbrace_ne_n, lbrace_ne_t, lbrace_ne_f, lbrace_ne_q, lbrace_ne_lbrack]
        | cons k v t =>
          rw [printVal, List.cons_append, List.cons_append, parseVal]
          rw [skipWs_cons_not_ws _ _ (by decide)]
          have hassoc : (printFields (lvl + 1) k v t ++ '\n' :: (indent lvl ++ [rbrace])) ++ rest
              = printFields (lvl + 1) k v t ++ '\n' :: (indent lvl ++ rbrace :: rest) := by
            simp [List.append_assoc]
          rw [hassoc, printFields_decomp]
          have hskip : skipWs ('\n' :: (indent (lvl + 1)
                ++ (quoteStr k ++ ':' :: ' ' :: printVal (lvl + 1) v
                    ++ fieldsSep (lvl + 1) lvl t rest)))
              = '"' :: (escBody k ++ '"' :: (':' :: ' ' :: printVal (lvl + 1) v
                  ++ fieldsSep (lvl + 1) lvl t rest)) := by
            rw [skipWs_cons_ws _ _ (by decide), skipWs_indent]
            rw [show quoteStr k ++ ':' :: ' ' :: printVal (lvl + 1) v
                  ++ fieldsSep (lvl + 1) lvl t rest
                = '"' :: (escBody k ++ '"' :: (':' :: ' ' :: printVal (lvl + 1) v
                    ++ fieldsSep (lvl + 1) lvl t rest)) from by
              rw [quoteStr]; simp [List.append_assoc]]
            exact skipWs_cons_not_ws _ _ (by decide)
          have hfields : parseFields fuel ('"' :: (escBody k
                ++ '"' :: (':' :: ' ' :: printVal (lvl + 1) v ++ fieldsSep (lvl + 1) lvl t rest)))
              = some (JsonObj.cons k v t, rest) := by
            rw [show ('"' :: (escBody k ++ '"' :: (':' :: ' ' :: printVal (lvl + 1) v
                  ++ fieldsSep (lvl + 1) lvl t rest)))
                = quoteStr k ++ ':' :: ' ' :: printVal (lvl + 1) v
                  ++ fieldsSep (lvl + 1) lvl t rest
                from by rw [quoteStr]; simp [List.append_assoc]]
            exact ihF k v t (lvl + 1) lvl rest (by rw [jweight] at hfuel; omega)
          simp only [List.cons_append, List.append_assoc] at hskip hfields
          simp [hskip, hfields, lbrace_ne_n, lbrace_ne_t, lbrace_ne_f, lbrace_ne_q,
            lbrace_ne_lbrack, q_ne_rbrace]
    · intro x t lvl2 lvl rest hfuel
      rw [parseItems]
      have hfx : jweight x ≤ fuel := by
        cases t with
        | nil => rw [jweightItems] at hfuel; omega
        | cons y t2 => rw [jweightItems] at hfuel; omega
      have hx := ihV x lvl2 (itemsSep lvl2 lvl t rest) hfx (numSafe_itemsSep _ _ _ _)
      cases t with
      | nil =>
        have hsep : skipWs (itemsSep lvl2 lvl JsonArr.nil rest) = ']' :: rest := by
          rw [itemsSep, skipWs_cons_ws _ _ (by decide), skipWs_indent,
            skipWs_cons_not_ws _ _ (by decide)]
        simp only [List.cons_append, List.append_assoc] at hx hsep
        simp [hx, hsep]
      | cons y t2 =>
        have hsep : skipWs (itemsSep lvl2 lvl (JsonArr.cons y t2) rest)
            = ',' :: ('\n' :: (printItems lvl2 y t2 ++ '\n' :: (indent lvl ++ ']' :: rest))) := by
          rw [itemsSep]
          exact skipWs_cons_not_ws _ _ (by decide)
        have hrec : parseItems fuel ('\n' :: (printItems lvl2 y t2
              ++ '\n' :: (indent lvl ++ ']' :: rest)))
            = some (JsonArr.cons y t2, rest) := by
          rw [printItems_decomp]
          rw [show ('\n' :: (indent lvl2 ++ (printVal lvl2 y ++ itemsSep lvl2 lvl t2 rest)))
              = ('\n' :: indent lvl2) ++ (printVal lvl2 y ++ itemsSep lvl2 lvl t2 rest) from rfl]
          rw [parseItems_ws fuel _ _ (by
            intro cq hq
            rcases List.mem_cons.mp hq with hq | hq
            · subst hq; rfl
            · exact indent_all_ws lvl2 cq hq)]
          exact ihI y t2 lvl2 lvl rest (by rw [jweightItems] at hfuel; omega)
        simp only [List.cons_append, List.append_assoc] at hx hsep hrec
        simp [hx, hsep, hrec]
    · intro k v t lvl2 lvl rest hfuel
      rw [parseFields]
      rw [show quoteStr k ++ ':' :: ' ' :: printVal lvl2 v ++ fieldsSep lvl2 lvl t rest
          = '"' :: (escBody k ++ '"' :: (':' :: ' ' :: printVal lvl2 v
              ++ fieldsSep lvl2 lvl t rest)) from by rw [quoteStr]; simp [List.append_assoc]]
      rw [skipWs_cons_not_ws _ _ (by decide)]
      have hfv : jweight v ≤ fuel := by
        cases t with
        | nil => rw [jweightFields] at hfuel; omega
        | cons k2 v2 t2 => rw [jweightFields] at hfuel; omega
      have hkey := parseStrBody_escape k (':' :: ' ' :: printVal lvl2 v
        ++ fieldsSep lvl2 lvl t rest)
      have hcol : skipWs (':' :: ' ' :: printVal lvl2 v ++ fieldsSep lvl2 lvl t rest)
          = ':' :: (' ' :: printVal lvl2 v ++ fieldsSep lvl2 lvl t rest) := by
        rw [show (':' :: ' ' :: printVal lvl2 v ++ fieldsSep lvl2 lvl t rest)
            = (':' :: (' ' :: printVal lvl2 v ++ fieldsSep lvl2 lvl t rest)) from rfl]
        exact skipWs_cons_not_ws _ _ (by decide)
      have hval : parseVal fuel (' ' :: printVal lvl2 v ++ fieldsSep lvl2 lvl t rest)
          = some (v, fieldsSep lvl2 lvl t rest) := by
        rw [show (' ' :: printVal lvl2 v ++ fieldsSep lvl2 lvl t rest)
            = ([' '] ++ (printVal lvl2 v ++ fieldsSep lvl2 lvl t rest)) from by simp]
        rw [parseVal_ws fuel [' '] _ (by
          intro cq hq
          rcases List.mem_singleton.mp hq with hq
          subst hq; rfl)]
        exact ihV v lvl2 (fieldsSep lvl2 lvl t rest) hfv (numSafe_fieldsSep _ _ _ _)
      cases t with
      | nil =>
        have hsep : skipWs (fieldsSep lvl2 lvl JsonObj.nil rest) = rbrace :: rest := by
          rw [fieldsSep, skipWs_cons_ws _ _ (by decide), skipWs_indent,
            skipWs_cons_not_ws _ _ (by decide)]
        simp only [List.cons_append, List.append_assoc] at hkey hcol hval hsep
        simp [hkey, hcol, hval, hsep, q_ne_rbrace, rbrace_ne_comma]
      | cons k2 v2 t2 =>
        have hrec : parseFields fuel ('\n' :: (printFields lvl2 k2 v2 t2
              ++ '\n' :: (indent lvl ++ rbrace :: rest)))
            = some (JsonObj.cons k2 v2 t2, rest) := by
          rw [printFields_decomp]
          rw [show ('\n' :: (indent lvl2 ++ (quoteStr k2 ++ ':' :: ' ' :: printVal lvl2 v2
                ++ fieldsSep lvl2 lvl t2 rest)))
              = ('\n' :: indent lvl2) ++ (quoteStr k2 ++ ':' :: ' ' :: printVal lvl2 v2
                ++ fieldsSep lvl2 lvl t2 rest) from rfl]
          rw [parseFields_ws fuel _ _ (by
            intro cq hq
            rcases List.mem_cons.mp hq with hq | hq
            · subst hq; rfl
            · exact indent_all_ws lvl2 cq hq)]
          exact ihF k2 v2 t2 lvl2 lvl rest (by rw [jweightFields] at hfuel; omega)
        have hsep : skipWs (fieldsSep lvl2 lvl (JsonObj.cons k2 v2 t2) rest)
            = ',' :: ('\n' :: (printFields lvl2 k2 v2 t2
                ++ '\n' :: (indent lvl ++ rbrace :: rest))) := by
          rw [fieldsSep]
          exact skipWs_cons_not_ws _ _ (by decide)
        simp only [List.cons_append, List.append_assoc] at hkey hcol hval hsep hrec
        simp [hkey, hcol, hval, hsep, hrec, rbrace_ne_comma]



theorem sizeOf_json_pos (v : Json) : 1 ≤ sizeOf v := by
  cases v <;> simp

theorem sizeOf_jsonArr_pos (t : JsonArr) : 1 ≤ sizeOf t := by
  cases t with
  | nil => simp
  | cons hd tl => simp only [JsonArr.cons.sizeOf_spec]; omega

theorem sizeOf_jsonObj_pos (t : JsonObj) : 1 ≤ sizeOf t := by
  cases t with
  | nil => simp
  | cons k v tl => simp only [JsonObj.cons.sizeOf_spec]; omega

theorem jweight_le_len_all (n : Nat) :
    (∀ (v : Json) (lvl : Nat), sizeOf v ≤ n → jweight v ≤ (printVal lvl v).length)
    ∧ (∀ (x : Json) (t : JsonArr) (lvl : Nat), sizeOf x + sizeOf t ≤ n →
        jweightItems x t ≤ (printItems lvl x t).length + 1)
    ∧ (∀ (k : String) (v : Json) (t : JsonObj) (lvl : Nat), sizeOf v + sizeOf t ≤ n →
        jweightFields v t ≤ (printFields lvl k v t).length + 1) := by
  induction n with
  | zero =>
    refine ⟨?_, ?_, ?_⟩
    · intro v lvl h
      exact absurd h (by have := sizeOf_json_pos v; omega)
    · intro x t lvl h
      exact absurd h (by have := sizeOf_json_pos x; have := sizeOf_jsonArr_pos t; omega)
    · intro k v t lvl h
      exact absurd h (by have := sizeOf_json_pos v; have := sizeOf_jsonObj_pos t; omega)
  | succ n ih =>
    obtain ⟨ihV, ihI, ihF⟩ := ih
    refine ⟨?_, ?_, ?_⟩
    · intro v lvl h
      cases v with
      | null => rw [jweight, printVal]; decide
      | bool b => cases b <;> (rw [jweight, printVal]; decide)
      | num m =>
        rw [jweight, printVal]
        obtain ⟨c, cs, hc, _⟩ := intToChars_head m
        rw [hc]
        simp
      | str s =>
        rw [jweight, printVal, quoteStr]
        simp
      | arr xs =>
        cases xs with
        | nil => rw [jweight, printVal]; decide
        | cons x t =>
          rw [jweight, printVal]
          have hb : jweightItems x t ≤ (printItems (lvl + 1) x t).length + 1 := by
            apply ihI
            simp only [Json.arr.sizeOf_spec, JsonArr.cons.sizeOf_spec] at h
            omega
          simp only [List.length_cons, List.length_append]
          omega
      | obj fs =>
        cases fs with
        | nil => rw [jweight, printVal]; decide
        | cons k v t =>
          rw [jweight, printVal]
          have hb : jweightFields v t ≤ (printFields (lvl + 1) k v t).length + 1 := by
            apply ihF
            simp only [Json.obj.sizeOf_spec, JsonObj.cons.sizeOf_spec] at h
            omega
          simp only [List.length_cons, List.length_append]
          omega
    · intro x t lvl h
      cases t with
      | nil =>
        rw [jweightItems, printItems]
        have ha : jweight x ≤ (printVal lvl x).length := by
          apply ihV
          have := sizeOf_jsonArr_pos JsonArr.nil
          omega
        simp only [List.length_append]
        omega
      | cons y t2 =>
        rw [jweightItems, printItems]
        have ha : jweight x ≤ (printVal lvl x).length := by
          apply ihV
          have h1 : (1 : Nat) ≤ sizeOf (JsonArr.cons y t2) := sizeOf_jsonArr_pos _
          omega
        have hb : jweightItems y t2 ≤ (printItems lvl y t2).length + 1 := by
          apply ihI
          simp only [JsonArr.cons.sizeOf_spec] at h
          have := sizeOf_json_pos x
          omega
        simp only [List.length_append, List.length_cons]
        omega
    · intro k v t lvl h
      cases t with
      | nil =>
        rw [jweightFields, printFields]
        have ha : jweight v ≤ (printVal lvl v).length := by
          apply ihV
          have := sizeOf_jsonObj_pos JsonObj.nil
          omega
        simp only [List.length_append, List.length_cons]
        omega
      | cons k2 v2 t2 =>
        rw [jweightFields, printFields]
        have ha : jweight v ≤ (printVal lvl v).length := by
          apply ihV
          have h1 : (1 : Nat) ≤ sizeOf (JsonObj.cons k2 v2 t2) := sizeOf_jsonObj_pos _
          omega
        have hb : jweightFields v2 t2 ≤ (printFields lvl k2 v2 t2).length + 1 := by
          apply ihF
          simp only [JsonObj.cons.sizeOf_spec] at h
          have := sizeOf_json_pos v
          omega
        simp only [List.length_append, List.length_cons]
        omega

/-- `JSON.parse` undoes `JSON.stringify(·, null, 2)`. -/
theorem parseJson_stringify (v : Json) : parseJson (stringifyPretty v) = some v := by
  rw [parseJson, stringifyPretty]
  have hdata : (String.mk (printVal 0 v)).data = printVal 0 v := rfl
  rw [hdata]
  have hw : jweight v ≤ (printVal 0 v).length + 1 := by
    have := (jweight_le_len_all (sizeOf v)).1 v 0 (le_refl _)
    omega
  have h := (parse_print_all ((printVal 0 v).length + 1)).1 v 0 [] hw trivial
  rw [List.append_nil] at h
  rw [h]
  rfl

/-- JS member access `v.key` on a parsed JSON value; `undefined` (for a
missing key or a non-object) is modelled as `null`. -/
def jgetObj : JsonObj → String → Json
  | .nil, _ => .null
  | .cons k x t, key => if k = key then x else jgetObj t key

def jget (v : Json) (key : String) : Json :=
  match v with
  | .obj fs => jgetObj fs key
  | _ => .null

/-- `v.key || ""` for a string-valued field (`syncData.hash || ''`). -/
def jgetStr (v : Json) (key : String) : String :=
  match jget v key with
  | .str s => s
  | _ => ""

/-- `v.key` when the caller stores it as an optional string
(`syncData.lastSyncTime`). -/
def jgetStrOpt (v : Json) (key : String) : Option String :=
  match jget v key with
  | .str s => some s
  | _ => none

/-! ## Content transport (`btoa(unescape(encodeURIComponent ·)))` and its inverse) -/

/-- `btoa(unescape(encodeURIComponent content))`: base64 of the UTF-8 bytes. -/
def encodeContent (s : String) : String := String.mk (base64Encode (strToBytes s))

/-- JS regex `\s` (the classes the content can meet here). -/
def isJsWs (c : Char) : Bool := isWsChar c || c = Char.ofNat 12 || c = Char.ofNat 11

/-- `content.replace(/\s/g, '')`. -/
def stripJsWs (s : String) : List Char := s.data.filter (fun c => !(isJsWs c))

/-- `decodeURIComponent(escape(atob(x.replace(/\s/g, ''))))`; `none` models
the exception thrown on malformed input. -/
def decodeContent (s : String) : Option String :=
  match base64Decode (stripJsWs s) with
  | some bytes =>
    match utf8Decode bytes with
    | some cs => some (String.mk cs)
    | none => none
  | none => none

theorem strToBytes_lt (s : String) : ∀ b ∈ strToBytes s, b < 256 := by
  intro b hb
  rw [strToBytes] at hb
  rw [List.mem_flatten] at hb
  obtain ⟨l, hl, hbl⟩ := hb
  rw [List.mem_map] at hl
  obtain ⟨c, _, hcl⟩ := hl
  subst hcl
  have hv := char_toNat_lt c
  rw [utf8EncodeChar] at hbl
  by_cases h1 : c.toNat < 0x80
  · simp [h1] at hbl
    omega
  · by_cases h2 : c.toNat < 0x800
    · simp [h1, h2] at hbl
      rcases hbl with h | h <;> omega
    · by_cases h3 : c.toNat < 0x10000
      · simp [h1, h2, h3] at hbl
        rcases hbl with h | h | h <;> omega
      · simp [h1, h2, h3] at hbl
        rcases hbl with h | h | h | h <;> omega

theorem isJsWs_b64Char (n : Nat) : isJsWs (b64Char n) = false := by
  by_cases h : n < 64
  · have hall : ∀ m, m < 64 → isJsWs (b64Char m) = false := by decide
    exact hall n h
  · have hlen : b64Alphabet.length = 64 := by decide
    have hle : b64Alphabet.length ≤ n := by omega
    rw [b64Char, List.getD_eq_default _ _ hle]
    decide

theorem base64Encode_chars (bs : List Nat) :
    ∀ c ∈ base64Encode bs, c = '=' ∨ ∃ n, c = b64Char n := by
  induction bs using base64Encode.induct with
  | case1 => intro c hc; simp [base64Encode] at hc
  | case2 b1 =>
    intro c hc
    simp only [base64Encode, List.mem_cons, List.not_mem_nil, or_false] at hc
    rcases hc with h | h | h | h
    · right; exact ⟨_, h⟩
    · right; exact ⟨_, h⟩
    · left; exact h
    · left; exact h
  | case3 b1 b2 =>
    intro c hc
    simp only [base64Encode, List.mem_cons, List.not_mem_nil, or_false] at hc
    rcases hc with h | h | h | h
    · right; exact ⟨_, h⟩
    · right; exact ⟨_, h⟩
    · right; exact ⟨_, h⟩
    · left; exact h
  | case4 b1 b2 b3 rest ih =>
    intro c hc
    simp only [base64Encode, List.mem_cons] at hc
    rcases hc with h | h | h | h | h
    · right; exact ⟨_, h⟩
    · right; exact ⟨_, h⟩
    · right; exact ⟨_, h⟩
    · right; exact ⟨_, h⟩
    · exact ih c h

theorem stripJsWs_encodeContent (s : String) :
    stripJsWs (encodeContent s) = base64Encode (strToBytes s) := by
  rw [stripJsWs, encodeContent]
  have hdata : (String.mk (base64Encode (strToBytes s))).data = base64Encode (strToBytes s) :=
    rfl
  rw [hdata]
  apply List.filter_eq_self.mpr
  intro c hc
  rcases base64Encode_chars _ c hc with h | ⟨n, h⟩
  · subst h; decide
  · subst h
    rw [isJsWs_b64Char]
    rfl

/-- Full transport round trip: what `getFileContent` decodes is exactly what
`createOrUpdateFile` encoded, for every string, multi-byte content included. -/
theorem decodeContent_encodeContent (s : String) : decodeContent (encodeContent s) = some s := by
  rw [decodeContent, stripJsWs_encodeContent]
  rw [base64Encode_roundtrip _ (strToBytes_lt s)]
  have hu : utf8Decode (strToBytes s) = some s.data := by
    rw [strToBytes, utf8_roundtrip]
  simp [hu]

theorem utf8EncodeChar_length_pos (c : Char) : 1 ≤ (utf8EncodeChar c).length := by
  cases h : utf8EncodeChar c with
  | nil => exact absurd h (utf8EncodeChar_ne_nil c)
  | cons x xs => simp

theorem encodeContent_ne_empty (s : String) (h : s ≠ "") : encodeContent s ≠ "" := by
  intro hcon
  apply h
  have hdata : (base64Encode (strToBytes s)) = [] := by
    have : (String.mk (base64Encode (strToBytes s))).data = ("" : String).data :=
      congrArg String.data hcon
    simpa using this
  have hbytes : strToBytes s = [] := by
    cases hb : strToBytes s with
    | nil => rfl
    | cons b bs =>
      rw [hb] at hdata
      cases bs with
      | nil => simp [base64Encode] at hdata
      | cons b2 bs2 =>
        cases bs2 with
        | nil => simp [base64Encode] at hdata
        | cons b3 bs3 => simp [base64Encode] at hdata
  have hchars : s.data = [] := by
    cases hd : s.data with
    | nil => rfl
    | cons c cs =>
      rw [strToBytes, hd] at hbytes
      simp only [List.map_cons, List.flatten_cons] at hbytes
      rw [List.append_eq_nil] at hbytes
      exact absurd hbytes.1 (utf8EncodeChar_ne_nil c)
  cases s with
  | mk data =>
    have hd2 : data = [] := hchars
    rw [hd2]

/-! ## Operational model of the provider HTTP API

Each request consults an oracle (indexed by request count) that decides
whether the server accepts the request.  An accepted mutation applies its
documented effect (a PUT/POST stores the sent base64 content under a fresh
server-chosen sha, a DELETE removes the file); a rejected request leaves the
repository untouched and carries an error text.  An accepted GET returns the
stored file or a 404-style failure when absent.  This covers both network
failures and server-side rejections; the request-deduplication cache of
`apiRequest` is invisible in this sequential model and is not represented. -/

inductive Provider where
  | github
  | gitee
  deriving DecidableEq

/-- `GitConfig`; `branch? : string` can be absent or empty, both JS-falsy. -/
structure GitConfig where
  provider : Provider
  token : String
  owner : String
  repo : String
  branch : Option String
  deriving DecidableEq

structure PutBody where
  message : String
  content : String
  branch : String
  sha : Option String
  deriving DecidableEq

structure PostBody where
  message : String
  content : String
  branch : String
  deriving DecidableEq

structure DelBody where
  message : String
  sha : String
  branch : String
  deriving DecidableEq

inductive Request where
  | get (endpoint : String)
  | put (endpoint : String) (body : PutBody)
  | post (endpoint : String) (body : PostBody)
  | del (endpoint : String) (body : DelBody)
  deriving DecidableEq

/-- A remote file as the server stores it: base64 content plus sha. -/
structure ServerFile where
  content : String
  sha : String
  deriving DecidableEq

/-- The environment's decision for one request: accept or reject, the sha
assigned on an accepted write, and the error text of a rejection. -/
structure OracleResp where
  ok : Bool
  newSha : String
  errText : String

abbrev Oracle := Nat → OracleResp

inductive HttpResp where
  | okGet (content : String) (sha : String)
  | okWrite (sha : String)
  | okDelete
  | err (errText : String)
  deriving DecidableEq

structure NetState where
  remote : List (String × ServerFile)
  idx : Nat
  trace : List Request
  deriving DecidableEq

/-- URL routing: the path component of an endpoint, query string stripped. -/
def routePath (e : String) : String := String.mk (e.data.takeWhile (fun c => c ≠ '?'))

def serve (o : Oracle) (req : Request) (s : NetState) : HttpResp × NetState :=
  let r := o s.idx
  let s1 : NetState := { s with idx := s.idx + 1, trace := s.trace ++ [req] }
  match req with
  | .get e =>
    if r.ok then
      match aget s1.remote (routePath e) with
      | some f => (.okGet f.content f.sha, s1)
      | none => (.err "Not Found", s1)
    else (.err r.errText, s1)
  | .put e b =>
    if r.ok then
      (.okWrite r.newSha,
        { s1 with remote := aset s1.remote (routePath e) ⟨b.content, r.newSha⟩ })
    else (.err r.errText, s1)
  | .post e b =>
    if r.ok then
      (.okWrite r.newSha,
        { s1 with remote := aset s1.remote (routePath e) ⟨b.content, r.newSha⟩ })
    else (.err r.errText, s1)
  | .del e _ =>
    if r.ok then (.okDelete, { s1 with remote := adel s1.remote (routePath e) })
    else (.err r.errText, s1)

/-! ## The client (`GitSyncClient`), adapter level -/

/-- `getRepoPath`. -/
def getRepoPath (cfg : GitConfig) : String := "repos/" ++ cfg.owner ++ "/" ++ cfg.repo

def contentsEndpoint (cfg : GitConfig) (path : String) : String :=
  getRepoPath cfg ++ "/contents/" ++ path

/-- `errorText.includes(needle)`. -/
def startsWithList : List Char → List Char → Bool
  | _, [] => true
  | [], _ :: _ => false
  | a :: l, b :: p => a = b && startsWithList l p

def containsSubList : List Char → List Char → Bool
  | [], nd => nd.isEmpty
  | a :: l, nd => startsWithList (a :: l) nd || containsSubList l nd

def strContainsSub (hay needle : String) : Bool := containsSubList hay.data needle.data

/-- `getFileContent`: read, check `data.content` truthiness, decode; every
exception is caught and becomes `null`. -/
def getFileContent (cfg : GitConfig) (o : Oracle) (path : String) (s : NetState) :
    Option (String × String) × NetState :=
  let endpoint := contentsEndpoint cfg path ++ "?ref=" ++ jsOr cfg.branch "main"
  match serve o (.get endpoint) s with
  | (.okGet content sha, s1) =>
    if content = "" then (none, s1)
    else
      match decodeContent content with
      | some txt => (some (txt, sha), s1)
      | none => (none, s1)
  | (_, s1) => (none, s1)

/-- The single-write tail of `createOrUpdateFile` (source lines 452-511):
one PUT, and on a Gitee rejection whose error text contains `sha`, one
token refetch followed by at most one retry. -/
def couMainWrite (cfg : GitConfig) (o : Oracle) (path encodedContent message : String)
    (sha : Option String) (s : NetState) : Bool × NetState :=
  let branch := jsOr cfg.branch (if cfg.provider = .gitee then "master" else "main")
  let shaField : Option String :=
    match sha with
    | some sh => if sh.trim ≠ "" then some sh else none
    | none => none
  let endpoint := contentsEndpoint cfg path
  let body : PutBody := ⟨message, encodedContent, branch, shaField⟩
  match serve o (.put endpoint body) s with
  | (.okWrite _, s1) => (true, s1)
  | (.err errText, s1) =>
    if cfg.provider = .gitee ∧ strContainsSub errText "sha" then
      match getFileContent cfg o path s1 with
      | (some (_, freshSha), s2) =>
        let body2 : PutBody := { body with sha := some freshSha }
        match serve o (.put endpoint body2) s2 with
        | (.okWrite _, s3) => (true, s3)
        | (_, s3) => (false, s3)
      | (none, s2) => (false, s2)
    else (false, s1)
  | (_, s1) => (false, s1)

/-- `tryPostCreate`. -/
def tryPostCreate (cfg : GitConfig) (o : Oracle) (path message encodedContent : String)
    (s : NetState) : Bool × NetState :=
  let body : PostBody := ⟨message, encodedContent, jsOr cfg.branch "master"⟩
  match serve o (.post (contentsEndpoint cfg path) body) s with
  | (.okWrite _, s1) => (true, s1)
  | (_, s1) => (false, s1)

/-- `tryCreateThenUpdate`: write an empty placeholder, then update it with
the placeholder's returned sha. -/
def tryCreateThenUpdate (cfg : GitConfig) (o : Oracle) (path message encodedContent : String)
    (s : NetState) : Bool × NetState :=
  let emptyContent := encodeContent ""
  let createBody : PutBody :=
    ⟨"初始化文件: " ++ path, emptyContent, jsOr cfg.branch "master", none⟩
  let endpoint := contentsEndpoint cfg path
  match serve o (.put endpoint createBody) s with
  | (.okWrite csha, s1) =>
    if csha ≠ "" then
      let updateBody : PutBody := ⟨message, encodedContent, jsOr cfg.branch "master", some csha⟩
      match serve o (.put endpoint updateBody) s1 with
      | (.okWrite _, s2) => (true, s2)
      | (_, s2) => (false, s2)
    else (false, s1)
  | (_, s1) => (false, s1)

/-- `tryPutWithEmptySha`. -/
def tryPutWithEmptySha (cfg : GitConfig) (o : Oracle) (path message encodedContent : String)
    (s : NetState) : Bool × NetState :=
  let body : PutBody := ⟨message, encodedContent, jsOr cfg.branch "master", some ""⟩
  match serve o (.put (contentsEndpoint cfg path) body) s with
  | (.okWrite _, s1) => (true, s1)
  | (_, s1) => (false, s1)

/-- `createNewFileForGitee`: the ordered three-strategy fallback chain with
early exit on first success. -/
def createNewFileForGitee (cfg : GitConfig) (o : Oracle) (path content message : String)
    (s : NetState) : Bool × NetState :=
  let encodedContent := encodeContent content
  let (ra, s1) := tryPostCreate cfg o path message encodedContent s
  if ra then (true, s1)
  else
    let (rb, s2) := tryCreateThenUpdate cfg o path message encodedContent s1
    if rb then (true, s2)
    else
      let (rc, s3) := tryPutWithEmptySha cfg o path message encodedContent s2
      if rc then (true, s3) else (false, s3)

/-- `createOrUpdateFile`. -/
def createOrUpdateFile (cfg : GitConfig) (o : Oracle) (path content message : String)
    (existingSha : Option String) (s : NetState) : Bool × NetState :=
  let encoded := encodeContent content
  let (sha1, s1) :=
    if jsFalsyStr existingSha then
      let (ex, s1) := getFileContent cfg o path s
      (ex.map (fun p => p.2), s1)
    else (existingSha, s)
  if jsFalsyStr sha1 ∧ cfg.provider = .gitee then
    createNewFileForGitee cfg o path content message s1
  else
    couMainWrite cfg o path encoded message sha1 s1

/-- `deleteFile`: resolve the sha first; an absent file is success without
any delete request. -/
def deleteFile (cfg : GitConfig) (o : Oracle) (path message : String) (s : NetState) :
    Bool × NetState :=
  let (fi, s1) := getFileContent cfg o path s
  match fi with
  | none => (true, s1)
  | some (_, sha) =>
    let body : DelBody := ⟨message, sha, jsOr cfg.branch "main"⟩
    match serve o (.del (contentsEndpoint cfg path) body) s1 with
    | (.okDelete, s2) => (true, s2)
    | (_, s2) => (false, s2)

/-! ## The client, engine level

A data module is a name plus a remote filename; its `getData`/`setData`
capabilities act on the `localData` store of the engine state, and every
`setData` invocation is additionally logged in `writes` so that theorems can
speak about what was written.  `CryptoJS.MD5` is an external primitive used
only as a function, so it is a parameter `md5` of every definition below. -/

structure DataModule where
  name : String
  filename : String
  deriving DecidableEq

structure SyncState where
  cache : List (String × String)
  localData : List (String × Json)
  writes : List (String × Json)
  net : NetState

def getData (st : SyncState) (m : DataModule) : Json :=
  match aget st.localData m.name with
  | some v => v
  | none => Json.null

def setData (st : SyncState) (m : DataModule) (v : Json) : SyncState :=
  { st with localData := aset st.localData m.name v, writes := st.writes ++ [(m.name, v)] }

/-- `generateDataHash`: `CryptoJS.MD5(JSON.stringify(data, null, 2))`. -/
def generateDataHash (md5 : String → String) (data : Json) : String :=
  md5 (stringifyPretty data)

/-- `getLocalDataHash`. -/
def getLocalDataHash (md5 : String → String) (st : SyncState) (m : DataModule) : String :=
  generateDataHash md5 (getData st m)

/-- `hasDataChanged`: the `if (!cachedHash)` guard — a missing or
empty-string baseline is JS-falsy — seeds the baseline and reports no
change; otherwise a differing hash updates the baseline and reports change,
and an equal hash reports no change. -/
def hasDataChanged (md5 : String → String) (m : DataModule) (st : SyncState) :
    Bool × SyncState :=
  let currentHash := getLocalDataHash md5 st m
  let cachedHash := aget st.cache m.name
  if jsFalsyStr cachedHash then
    (false, { st with cache := aset st.cache m.name currentHash })
  else if cachedHash ≠ some currentHash then
    (true, { st with cache := aset st.cache m.name currentHash })
  else (false, st)

/-- `initializeHashCache` (renamed): seed every module's baseline. -/
def initHashCache (md5 : String → String) (modules : List DataModule) (st : SyncState) :
    SyncState :=
  modules.foldl
    (fun st m => { st with cache := aset st.cache m.name (getLocalDataHash md5 st m) }) st

/-- The `SyncEnvelope` written by a push. -/
def syncEnvelope (md5 : String → String) (now : String) (data : Json) : Json :=
  Json.obj (.cons "data" data (.cons "lastSyncTime" (Json.str now)
    (.cons "hash" (Json.str (generateDataHash md5 data)) .nil)))

/-- `syncModuleToCloud`. -/
def syncModuleToCloud (md5 : String → String) (cfg : GitConfig) (o : Oracle) (now : String)
    (m : DataModule) (st : SyncState) : Bool × SyncState :=
  let data := getData st m
  let hash := generateDataHash md5 data
  let jsonString := stringifyPretty (syncEnvelope md5 now data)
  let filename := "sync-" ++ m.filename
  let (existing, net1) := getFileContent cfg o filename st.net
  let (success, net2) := createOrUpdateFile cfg o filename jsonString
    ("更新" ++ m.name ++ "数据 - " ++ now) (existing.map (fun p => p.2)) net1
  let st1 := { st with net := net2 }
  if success then (true, { st1 with cache := aset st1.cache m.name hash })
  else (false, st1)

/-- `syncModuleFromCloud`: absent remote file fails; unparseable content
throws, is caught and fails; otherwise the envelope's `data` is applied via
`setData` and the baseline is set to the envelope's `hash` (the integrity
comparison only logs a warning and is behaviourally inert). -/
def syncModuleFromCloud (md5 : String → String) (cfg : GitConfig) (o : Oracle)
    (m : DataModule) (st : SyncState) : Bool × SyncState :=
  let filename := "sync-" ++ m.filename
  let (fi, net1) := getFileContent cfg o filename st.net
  let st1 := { st with net := net1 }
  match fi with
  | none => (false, st1)
  | some (content, _) =>
    match parseJson content with
    | none => (false, st1)
    | some syncData =>
      let dataField := jget syncData "data"
      let st2 := setData st1 m dataField
      let st3 := { st2 with cache := aset st2.cache m.name (jgetStr syncData "hash") }
      (true, st3)

structure SyncStatus where
  filename : String
  localHash : String
  cloudHash : String
  needsSync : Bool
  lastSyncTime : Option String
  deriving DecidableEq

/-- One module's status check (the per-module closure of `checkSyncStatus`);
an unparseable remote envelope throws inside the closure, and the
surrounding catch returns the empty default entry. -/
def checkOne (md5 : String → String) (cfg : GitConfig) (o : Oracle) (m : DataModule)
    (st : SyncState) : SyncStatus × NetState :=
  let localHash := getLocalDataHash md5 st m
  let filename := "sync-" ++ m.filename
  let (fi, net1) := getFileContent cfg o filename st.net
  match fi with
  | none => (⟨m.filename, localHash, "", localHash != "", none⟩, net1)
  | some (content, _) =>
    match parseJson content with
    | none => (⟨m.filename, "", "", false, none⟩, net1)
    | some syncData =>
      let cloudHash := jgetStr syncData "hash"
      (⟨m.filename, localHash, cloudHash, localHash != cloudHash,
        jgetStrOpt syncData "lastSyncTime"⟩, net1)

/-- `checkSyncStatus`: one isolated check per registered module. -/
def checkSyncStatus (md5 : String → String) (cfg : GitConfig) (o : Oracle)
    (modules : List DataModule) (st : SyncState) : List SyncStatus × SyncState :=
  match modules with
  | [] => ([], st)
  | m :: rest =>
    let (entry, net1) := checkOne md5 cfg o m st
    let st1 := { st with net := net1 }
    let (entries, st2) := checkSyncStatus md5 cfg o rest st1
    (entry :: entries, st2)

/-- Observable sync direction taken for one module by `autoSync`. -/
inductive SyncAction where
  | pushA (name : String)
  | pullA (name : String)
  deriving DecidableEq

/-- The per-status loop of `autoSync`; the emitted `SyncAction` list records
which branch ran for which module. -/
def autoSyncGo (md5 : String → String) (cfg : GitConfig) (o : Oracle) (now : String)
    (modules : List DataModule) :
    List SyncStatus → SyncState → List (String × Bool) × List SyncAction × SyncState
  | [], st => ([], [], st)
  | status :: rest, st =>
    match modules.find? (fun m => m.filename == status.filename) with
    | none => autoSyncGo md5 cfg o now modules rest st
    | some m =>
      if status.needsSync = false then autoSyncGo md5 cfg o now modules rest st
      else
        let (hasLocalChanges, st1) := hasDataChanged md5 m st
        if hasLocalChanges || status.cloudHash == "" then
          let (ok, st2) := syncModuleToCloud md5 cfg o now m st1
          let (res, acts, st3) := autoSyncGo md5 cfg o now modules rest st2
          ((m.name, ok) :: res, .pushA m.name :: acts, st3)
        else
          let (ok, st2) := syncModuleFromCloud md5 cfg o m st1
          let (res, acts, st3) := autoSyncGo md5 cfg o now modules rest st2
          ((m.name, ok) :: res, .pullA m.name :: acts, st3)

/-- `autoSync` (with the configuration present; the `!this.config` early
return is outside this model's scope). -/
def autoSync (md5 : String → String) (cfg : GitConfig) (o : Oracle) (now : String)
    (modules : List DataModule) (st : SyncState) :
    (Bool × List (String × Bool) × List SyncAction) × SyncState :=
  let st0 := if st.cache.isEmpty then initHashCache md5 modules st else st
  let (statusList, st1) := checkSyncStatus md5 cfg o modules st0
  let (res, acts, st2) := autoSyncGo md5 cfg o now modules statusList st1
  ((res.all (fun p => p.2), res, acts), st2)

/-! ## Config store -/

structure ConfigState where
  storage : List (String × String)
  active : Option GitConfig

def defaultBranch (p : Provider) : String := if p = .gitee then "master" else "main"

/-- The shared `if (!config.branch) config.branch = provider === 'gitee' ?
'master' : 'main'` step of `saveConfig` and `loadConfig`. -/
def resolveBranch (c : GitConfig) : GitConfig :=
  if jsFalsyStr c.branch then { c with branch := some (defaultBranch c.provider) } else c

/-- `saveConfig`; `enc` is the external `CryptoJS.AES` encryption. -/
def saveConfig (enc : GitConfig → String) (c : GitConfig) (cs : ConfigState) : ConfigState :=
  let c1 := resolveBranch c
  { storage := aset cs.storage "git-sync-config-encrypted" (enc c1), active := some c1 }

/-- `loadConfig`; `dec` is the external decryption, `none` on failure. -/
def loadConfig (dec : String → Option GitConfig) (cs : ConfigState) :
    Option GitConfig × ConfigState :=
  match aget cs.storage "git-sync-config-encrypted" with
  | none => (none, cs)
  | some blob =>
    match dec blob with
    | none => (none, cs)
    | some c0 =>
      let c1 := resolveBranch c0
      (some c1, { cs with active := some c1 })

/-- `generateMD5`: `generateDataHash(JSON.parse(data))` with no try/catch —
a parse failure is an exception escaping to the caller, modelled as
`Except.error`. -/
def generateMD5 (md5 : String → String) (s : String) : Except String String :=
  match parseJson s with
  | none => Except.error "SyntaxError"
  | some v => Except.ok (generateDataHash md5 v)

/-! ## Claim theorems -/

/-- C2 (amended): change detection under the JS-falsy baseline guard. A
first observation — one with no stored baseline or with a stored
empty-string baseline, both falsy to `if (!cachedHash)` — seeds the baseline
with the current hash and reports unchanged; a later observation whose hash
differs from a stored non-empty baseline updates the baseline and reports
changed; an observation matching a stored non-empty baseline reports
unchanged; and two consecutive observations of the same value always report
unchanged the second time. (The original claim's unconditional
differs-from-stored-baseline ⇒ changed fails at an empty stored baseline,
see the counterexample.) -/
theorem claim_C2 (md5 : String → String) (m : DataModule) (st : SyncState) :
    (jsFalsyStr (aget st.cache m.name) = true →
      hasDataChanged md5 m st
        = (false, { st with cache := aset st.cache m.name (getLocalDataHash md5 st m) }))
    ∧ (∀ b, aget st.cache m.name = some b → b ≠ "" → b ≠ getLocalDataHash md5 st m →
      hasDataChanged md5 m st
        = (true, { st with cache := aset st.cache m.name (getLocalDataHash md5 st m) }))
    ∧ (∀ b, aget st.cache m.name = some b → b ≠ "" → b = getLocalDataHash md5 st m →
      hasDataChanged md5 m st = (false, st))
    ∧ (hasDataChanged md5 m (hasDataChanged md5 m st).2).1 = false := by
  refine ⟨?_, ?_, ?_, ?_⟩
  · intro h
    rw [hasDataChanged, if_pos h]
  · intro b hb hbne hne
    rw [hasDataChanged, hb]
    rw [if_neg (by simp [jsFalsyStr, hbne])]
    rw [if_pos (fun hc => hne (Option.some.inj hc))]
  · intro b hb hbne heq
    rw [hasDataChanged, hb]
    rw [if_neg (by simp [jsFalsyStr, hbne])]
    rw [if_neg (fun hc => hc (by rw [heq]))]
  · by_cases h : jsFalsyStr (aget st.cache m.name) = true
    · have h1 : hasDataChanged md5 m st
          = (false, { st with cache := aset st.cache m.name (getLocalDataHash md5 st m) }) := by
        rw [hasDataChanged, if_pos h]
      rw [h1]
      show (hasDataChanged md5 m
        { st with cache := aset st.cache m.name (getLocalDataHash md5 st m) }).1 = false
      have hloc : getLocalDataHash md5
          { st with cache := aset st.cache m.name (getLocalDataHash md5 st m) } m
          = getLocalDataHash md5 st m := rfl
      rw [hasDataChanged, hloc, aget_aset_self]
      by_cases hcur : getLocalDataHash md5 st m = ""
      · rw [if_pos (by simp [jsFalsyStr, hcur])]
      · rw [if_neg (by simp [jsFalsyStr, hcur])]
        rw [if_neg (fun hc => hc rfl)]
    · obtain ⟨b, hb⟩ : ∃ b, aget st.cache m.name = some b := by
        cases hc : aget st.cache m.name with
        | none =>
          rw [hc] at h
          exact absurd rfl h
        | some b => exact ⟨b, rfl⟩
      have hbne : b ≠ "" := by
        intro hcon
        subst hcon
        rw [hb] at h
        exact h rfl
      by_cases hne : b = getLocalDataHash md5 st m
      · have h1 : hasDataChanged md5 m st = (false, st) := by
          rw [hasDataChanged, hb]
          rw [if_neg (by simp [jsFalsyStr, hbne])]
          rw [if_neg (fun hc => hc (by rw [hne]))]
        rw [h1]
        show (hasDataChanged md5 m st).1 = false
        rw [h1]
      · have h1 : hasDataChanged md5 m st
            = (true, { st with cache := aset st.cache m.name (getLocalDataHash md5 st m) }) := by
          rw [hasDataChanged, hb]
          rw [if_neg (by simp [jsFalsyStr, hbne])]
          rw [if_pos (fun hc => hne (Option.some.inj hc))]
        rw [h1]
        show (hasDataChanged md5 m
          { st with cache := aset st.cache m.name (getLocalDataHash md5 st m) }).1 = false
        have hloc : getLocalDataHash md5
            { st with cache := aset st.cache m.name (getLocalDataHash md5 st m) } m
            = getLocalDataHash md5 st m := rfl
        rw [hasDataChanged, hloc, aget_aset_self]
        by_cases hcur : getLocalDataHash md5 st m = ""
        · rw [if_pos (by simp [jsFalsyStr, hcur])]
        · rw [if_neg (by simp [jsFalsyStr, hcur])]
          rw [if_neg (fun hc => hc rfl)]

/-- C2 counterexample: a stored baseline exists (the empty string, stored by
a pull of an envelope with no `hash` field) and differs from the current
hash, yet `hasDataChanged` reports unchanged — the `if (!cachedHash)` guard
treats the empty baseline as absent and reseeds it instead of comparing. -/
theorem claim_C2_counterexample :
    (syncModuleFromCloud (fun _ => "h1") ⟨Provider.github, "t", "o", "r", some "main"⟩
      (fun _ => ⟨true, "ns", ""⟩) ⟨"tasks", "tasks.json"⟩
      ⟨[], [("tasks", Json.null)], [],
        ⟨[("repos/o/r/contents/sync-tasks.json", ⟨encodeContent "\x7b\x7d", "s1"⟩)],
          0, []⟩⟩).1 = true
    ∧ aget (syncModuleFromCloud (fun _ => "h1") ⟨Provider.github, "t", "o", "r", some "main"⟩
      (fun _ => ⟨true, "ns", ""⟩) ⟨"tasks", "tasks.json"⟩
      ⟨[], [("tasks", Json.null)], [],
        ⟨[("repos/o/r/contents/sync-tasks.json", ⟨encodeContent "\x7b\x7d", "s1"⟩)],
          0, []⟩⟩).2.cache "tasks" = some ""
    ∧ getLocalDataHash (fun _ => "h1")
      (syncModuleFromCloud (fun _ => "h1") ⟨Provider.github, "t", "o", "r", some "main"⟩
        (fun _ => ⟨true, "ns", ""⟩) ⟨"tasks", "tasks.json"⟩
        ⟨[], [("tasks", Json.null)], [],
          ⟨[("repos/o/r/contents/sync-tasks.json", ⟨encodeContent "\x7b\x7d", "s1"⟩)],
            0, []⟩⟩).2 ⟨"tasks", "tasks.json"⟩ ≠ ""
    ∧ (hasDataChanged (fun _ => "h1") ⟨"tasks", "tasks.json"⟩
      (syncModuleFromCloud (fun _ => "h1") ⟨Provider.github, "t", "o", "r", some "main"⟩
        (fun _ => ⟨true, "ns", ""⟩) ⟨"tasks", "tasks.json"⟩
        ⟨[], [("tasks", Json.null)], [],
          ⟨[("repos/o/r/contents/sync-tasks.json", ⟨encodeContent "\x7b\x7d", "s1"⟩)],
            0, []⟩⟩).2).1 = false := by
  refine ⟨rfl, rfl, by decide, rfl⟩

/-- C2 witness: a concrete run of the amended change-detection conjuncts —
seeding from an empty cache, change on a differing non-empty baseline, no
change on a matching baseline, and idempotence of a repeated observation. -/
theorem claim_C2_witness :
    (hasDataChanged (fun _ => "h1") ⟨"tasks", "tasks.json"⟩
      ⟨[], [("tasks", Json.null)], [], ⟨[], 0, []⟩⟩).1 = false
    ∧ (hasDataChanged (fun _ => "h1") ⟨"tasks", "tasks.json"⟩
      ⟨[("tasks", "old")], [("tasks", Json.null)], [], ⟨[], 0, []⟩⟩).1 = true
    ∧ (hasDataChanged (fun _ => "h1") ⟨"tasks", "tasks.json"⟩
      ⟨[("tasks", "h1")], [("tasks", Json.null)], [], ⟨[], 0, []⟩⟩).1 = false
    ∧ (hasDataChanged (fun _ => "h1") ⟨"tasks", "tasks.json"⟩
      (hasDataChanged (fun _ => "h1") ⟨"tasks", "tasks.json"⟩
        ⟨[], [("tasks", Json.null)], [], ⟨[], 0, []⟩⟩).2).1 = false := by
  have h1 := claim_C2 (fun _ => "h1") ⟨"tasks", "tasks.json"⟩
    ⟨[], [("tasks", Json.null)], [], ⟨[], 0, []⟩⟩
  have h2 := claim_C2 (fun _ => "h1") ⟨"tasks", "tasks.json"⟩
    ⟨[("tasks", "old")], [("tasks", Json.null)], [], ⟨[], 0, []⟩⟩
  have h3 := claim_C2 (fun _ => "h1") ⟨"tasks", "tasks.json"⟩
    ⟨[("tasks", "h1")], [("tasks", Json.null)], [], ⟨[], 0, []⟩⟩
  refine ⟨?_, ?_, ?_, h1.2.2.2⟩
  · rw [h1.1 rfl]
  · rw [h2.2.1 "old" rfl (by decide) (by decide)]
  · have hloc : getLocalDataHash (fun _ => "h1")
        ⟨[("tasks", "h1")], [("tasks", Json.null)], [], ⟨[], 0, []⟩⟩
        ⟨"tasks", "tasks.json"⟩ = "h1" := rfl
    rw [h3.2.2.1 "h1" rfl (by decide) (by rw [hloc])]

/-- C8: after `saveConfig` and after every successful `loadConfig`, the
active configuration's branch is non-empty; when the stored branch is
JS-falsy (absent or empty) it is set to the provider default — `main` for
github and `master` for gitee — and a provided non-empty branch is kept. -/
theorem claim_C8 (enc : GitConfig → String) (dec : String → Option GitConfig)
    (c : GitConfig) (cs : ConfigState) :
    (∃ c1, (saveConfig enc c cs).active = some c1
      ∧ (∃ b, c1.branch = some b ∧ b ≠ "")
      ∧ (jsFalsyStr c.branch = true → c1.branch = some (defaultBranch c.provider))
      ∧ (jsFalsyStr c.branch = false → c1.branch = c.branch))
    ∧ (∀ c1 cs1, loadConfig dec cs = (some c1, cs1) →
      cs1.active = some c1 ∧ (∃ b, c1.branch = some b ∧ b ≠ "")
      ∧ (∀ blob c0, aget cs.storage "git-sync-config-encrypted" = some blob →
          dec blob = some c0 →
          (jsFalsyStr c0.branch = true → c1.branch = some (defaultBranch c0.provider))
          ∧ (jsFalsyStr c0.branch = false → c1.branch = c0.branch))) := by
  have hdef : ∀ p, defaultBranch p ≠ "" := by
    intro p
    cases p <;> simp [defaultBranch]
  have hres : ∀ x : GitConfig, (∃ b, (resolveBranch x).branch = some b ∧ b ≠ "")
      ∧ (jsFalsyStr x.branch = true →
          (resolveBranch x).branch = some (defaultBranch x.provider))
      ∧ (jsFalsyStr x.branch = false → (resolveBranch x).branch = x.branch) := by
    intro x
    cases hb : x.branch with
    | none =>
      have hf : jsFalsyStr x.branch = true := by rw [hb]; rfl
      have hrb : resolveBranch x = { x with branch := some (defaultBranch x.provider) } := by
        rw [resolveBranch, if_pos hf]
      refine ⟨⟨defaultBranch x.provider, by rw [hrb], hdef _⟩, fun _ => by rw [hrb], ?_⟩
      intro hcon
      exact absurd hcon (by decide)
    | some b =>
      by_cases hbe : b = ""
      · subst hbe
        have hf : jsFalsyStr x.branch = true := by rw [hb]; rfl
        have hrb : resolveBranch x = { x with branch := some (defaultBranch x.provider) } := by
          rw [resolveBranch, if_pos hf]
        refine ⟨⟨defaultBranch x.provider, by rw [hrb], hdef _⟩, fun _ => by rw [hrb], ?_⟩
        intro hcon
        exact absurd hcon (by decide)
      · have hf : jsFalsyStr x.branch = false := by
          rw [hb]
          simp [jsFalsyStr, hbe]
        have hrb : resolveBranch x = x := by
          rw [resolveBranch, if_neg (by rw [hf]; simp)]
        refine ⟨⟨b, by rw [hrb, hb], hbe⟩, ?_, fun _ => by rw [hrb]; exact hb⟩
        intro hcon
        simp [jsFalsyStr] at hcon
        exact (hbe hcon).elim
  constructor
  · exact ⟨resolveBranch c, rfl, (hres c).1, (hres c).2.1, (hres c).2.2⟩
  · intro c1 cs1 hload
    rw [loadConfig] at hload
    split at hload
    · exact absurd (congrArg Prod.fst hload) (by simp)
    · rename_i blob hblob
      split at hload
      · exact absurd (congrArg Prod.fst hload) (by simp)
      · rename_i c0 hdec
        simp only [Prod.mk.injEq, Option.some.injEq] at hload
        obtain ⟨hc1, hcs1⟩ := hload
        subst hc1
        subst hcs1
        refine ⟨rfl, (hres c0).1, ?_⟩
        intro blob2 c02 hblob2 hdec2
        rw [hblob] at hblob2
        have hb2 : blob = blob2 := Option.some.inj hblob2
        subst hb2
        rw [hdec] at hdec2
        have hc02 : c0 = c02 := Option.some.inj hdec2
        subst hc02
        exact ⟨(hres c0).2.1, (hres c0).2.2⟩

/-- C8 witness: saving a branch-less gitee config defaults its branch to
`master`, and loading a config stored with an empty branch defaults by
provider on load. -/
theorem claim_C8_witness :
    ((saveConfig (fun _ => "blob") ⟨Provider.gitee, "t", "o", "r", none⟩
        ⟨[], none⟩).active = some ⟨Provider.gitee, "t", "o", "r", some "master"⟩)
    ∧ ((loadConfig (fun _ => some ⟨Provider.github, "t", "o", "r", some ""⟩)
        ⟨[("git-sync-config-encrypted", "x")], none⟩).1
      = some ⟨Provider.github, "t", "o", "r", some "main"⟩) := by
  have h1 := (claim_C8 (fun _ => "blob") (fun _ => some ⟨Provider.github, "t", "o", "r", some ""⟩)
    ⟨Provider.gitee, "t", "o", "r", none⟩ ⟨[], none⟩).1
  obtain ⟨c1, hact, _, hdef, _⟩ := h1
  have h2 := (claim_C8 (fun _ => "blob") (fun _ => some ⟨Provider.github, "t", "o", "r", some ""⟩)
    ⟨Provider.gitee, "t", "o", "r", none⟩
    ⟨[("git-sync-config-encrypted", "x")], none⟩).2
  constructor
  · rfl
  · rfl

/-- C9: the public `generateMD5` calls `JSON.parse` with no try/catch; on a
non-JSON input the parse error escapes to the caller — contradicting the
documented policy that no public operation raises. -/
theorem claim_C9 (md5 : String → String) :
    generateMD5 md5 "not json" = Except.error "SyntaxError" := by
  rfl

/-- C10: a successful read of a remote file whose stored content is empty
yields `null` from `getFileContent`, and `deleteFile` on such a file reports
success while issuing no delete request (only the lookup GET runs). -/
theorem claim_C10 (cfg : GitConfig) (o : Oracle) (path message : String) (s : NetState)
    (f : ServerFile)
    (hfile : aget s.remote
      (routePath (contentsEndpoint cfg path ++ "?ref=" ++ jsOr cfg.branch "main")) = some f)
    (hempty : f.content = "")
    (hok : (o s.idx).ok = true) :
    (getFileContent cfg o path s).1 = none
    ∧ deleteFile cfg o path message s
      = (true,
        { s with
          idx := s.idx + 1
          trace := s.trace
            ++ [Request.get (contentsEndpoint cfg path
                  ++ "?ref=" ++ jsOr cfg.branch "main")] }) := by
  have hget : getFileContent cfg o path s
      = (none,
        { s with
          idx := s.idx + 1
          trace := s.trace
            ++ [Request.get (contentsEndpoint cfg path
                  ++ "?ref=" ++ jsOr cfg.branch "main")] }) := by
    rw [getFileContent, serve]
    simp only [hok, if_pos rfl, hfile]
    simp [hempty]
  constructor
  · rw [hget]
  · rw [deleteFile, hget]

/-- C10 witness: a concrete one-file repository with empty stored content. -/
theorem claim_C10_witness :
    (aget ([("repos/o/r/contents/f.json", (⟨"", "sh1"⟩ : ServerFile))])
      (routePath (contentsEndpoint ⟨Provider.github, "t", "o", "r", some "main"⟩ "f.json"
        ++ "?ref=" ++ jsOr (some "main") "main")) = some ⟨"", "sh1"⟩)
    ∧ ((fun _ => (⟨true, "s", ""⟩ : OracleResp)) (0 : Nat)).ok = true
    ∧ (getFileContent ⟨Provider.github, "t", "o", "r", some "main"⟩
        (fun _ => ⟨true, "s", ""⟩) "f.json" ⟨[("repos/o/r/contents/f.json", ⟨"", "sh1"⟩)], 0, []⟩).1
      = none
    ∧ deleteFile ⟨Provider.github, "t", "o", "r", some "main"⟩
        (fun _ => ⟨true, "s", ""⟩) "f.json" "del"
        ⟨[("repos/o/r/contents/f.json", ⟨"", "sh1"⟩)], 0, []⟩
      = (true, ⟨[("repos/o/r/contents/f.json", ⟨"", "sh1"⟩)], 1,
          [Request.get (contentsEndpoint ⟨Provider.github, "t", "o", "r", some "main"⟩ "f.json"
            ++ "?ref=" ++ jsOr (some "main") "main")]⟩) := by
  have h := claim_C10 ⟨Provider.github, "t", "o", "r", some "main"⟩
    (fun _ => ⟨true, "s", ""⟩) "f.json" "del"
    ⟨[("repos/o/r/contents/f.json", ⟨"", "sh1"⟩)], 0, []⟩ ⟨"", "sh1"⟩ (by rfl) rfl rfl
  exact ⟨by rfl, rfl, h.1, h.2⟩

/-- Every branch of `checkOne` carries the module's filename through. -/
theorem checkOne_filename (md5 : String → String) (cfg : GitConfig) (o : Oracle)
    (m : DataModule) (st : SyncState) :
    (checkOne md5 cfg o m st).1.filename = m.filename := by
  rw [checkOne]
  simp only []
  cases hfi : getFileContent cfg o ("sync-" ++ m.filename) st.net with
  | mk fi net1 =>
    cases fi with
    | none => simp
    | some p =>
      obtain ⟨content, sha⟩ := p
      cases hp : parseJson content <;> simp [hp]

/-- C6: `checkSyncStatus` returns exactly one status entry per registered
module, in registration order, whatever the oracle decides; and a module
whose per-module check throws — its remote envelope is present but does not
parse — reports empty local and cloud hashes with `needsSync = false`. -/
theorem claim_C6 (md5 : String → String) (cfg : GitConfig) (o : Oracle)
    (modules : List DataModule) (st : SyncState) :
    ((checkSyncStatus md5 cfg o modules st).1.map SyncStatus.filename
      = modules.map DataModule.filename)
    ∧ (∀ m content sha net1,
        getFileContent cfg o ("sync-" ++ m.filename) st.net = (some (content, sha), net1) →
        parseJson content = none →
        checkOne md5 cfg o m st = (⟨m.filename, "", "", false, none⟩, net1)) := by
  constructor
  · induction modules generalizing st with
    | nil => rw [checkSyncStatus]; rfl
    | cons m rest ih =>
      rw [checkSyncStatus]
      cases hco : checkOne md5 cfg o m st with
      | mk entry net1 =>
        cases hrec : checkSyncStatus md5 cfg o rest { st with net := net1 } with
        | mk entries st2 =>
          have hname : entry.filename = m.filename := by
            have h := checkOne_filename md5 cfg o m st
            rw [hco] at h
            exact h
          have htail := ih { st with net := net1 }
          rw [hrec] at htail
          simp [hco, hrec, hname, htail]
  · intro m content sha net1 hget hparse
    rw [checkOne]
    simp only [hget, hparse]

/-- C6 witness: a two-module run in which the first module's envelope is
present but unparseable. -/
theorem claim_C6_witness :
    ((checkSyncStatus (fun _ => "h")
        ⟨Provider.github, "t", "o", "r", some "main"⟩
        (fun _ => ⟨true, "ns", ""⟩)
        [⟨"tasks", "tasks.json"⟩, ⟨"notes", "notes.json"⟩]
        ⟨[], [], [],
          ⟨[("repos/o/r/contents/sync-tasks.json", ⟨encodeContent "x", "s1"⟩)], 0, []⟩⟩).1.map
      SyncStatus.filename = ["tasks.json", "notes.json"])
    ∧ checkOne (fun _ => "h")
        ⟨Provider.github, "t", "o", "r", some "main"⟩
        (fun _ => ⟨true, "ns", ""⟩)
        ⟨"tasks", "tasks.json"⟩
        ⟨[], [], [],
          ⟨[("repos/o/r/contents/sync-tasks.json", ⟨encodeContent "x", "s1"⟩)], 0, []⟩⟩
      = (⟨"tasks.json", "", "", false, none⟩,
          ⟨[("repos/o/r/contents/sync-tasks.json", ⟨encodeContent "x", "s1"⟩)], 1,
            [Request.get "repos/o/r/contents/sync-tasks.json?ref=main"]⟩) := by
  refine ⟨(claim_C6 (fun _ => "h") ⟨Provider.github, "t", "o", "r", some "main"⟩
      (fun _ => ⟨true, "ns", ""⟩) [⟨"tasks", "tasks.json"⟩, ⟨"notes", "notes.json"⟩]
      ⟨[], [], [],
        ⟨[("repos/o/r/contents/sync-tasks.json", ⟨encodeContent "x", "s1"⟩)], 0, []⟩⟩).1,
    (claim_C6 (fun _ => "h") ⟨Provider.github, "t", "o", "r", some "main"⟩
      (fun _ => ⟨true, "ns", ""⟩) [⟨"tasks", "tasks.json"⟩, ⟨"notes", "notes.json"⟩]
      ⟨[], [], [],
        ⟨[("repos/o/r/contents/sync-tasks.json", ⟨encodeContent "x", "s1"⟩)], 0, []⟩⟩).2
      ⟨"tasks", "tasks.json"⟩ "x" "s1"
      ⟨[("repos/o/r/contents/sync-tasks.json", ⟨encodeContent "x", "s1"⟩)], 1,
        [Request.get "repos/o/r/contents/sync-tasks.json?ref=main"]⟩
      (by rfl) (by rfl)⟩

/-- C4: with a falsy supplied sha, no sha discovered by the prior read, and
provider gitee, `createOrUpdateFile` delegates to the creation chain; the
chain runs POST creation, then placeholder-then-update, then an explicit
empty-sha write, in that order, stopping at the first success, and the third
strategy's outcome is returned as-is when the first two fail. -/
theorem claim_C4 (cfg : GitConfig) (o : Oracle) (path content message : String)
    (existingSha : Option String) (s s1 s2 : NetState) :
    (jsFalsyStr existingSha = true → cfg.provider = .gitee →
      getFileContent cfg o path s = (none, s1) →
      createOrUpdateFile cfg o path content message existingSha s
        = createNewFileForGitee cfg o path content message s1)
    ∧ (tryPostCreate cfg o path message (encodeContent content) s = (true, s1) →
      createNewFileForGitee cfg o path content message s = (true, s1))
    ∧ (tryPostCreate cfg o path message (encodeContent content) s = (false, s1) →
      tryCreateThenUpdate cfg o path message (encodeContent content) s1 = (true, s2) →
      createNewFileForGitee cfg o path content message s = (true, s2))
    ∧ (tryPostCreate cfg o path message (encodeContent content) s = (false, s1) →
      tryCreateThenUpdate cfg o path message (encodeContent content) s1 = (false, s2) →
      createNewFileForGitee cfg o path content message s
        = tryPutWithEmptySha cfg o path message (encodeContent content) s2) := by
  refine ⟨?_, ?_, ?_, ?_⟩
  · intro hfalsy hprov hget
    have hnone : jsFalsyStr none = true := rfl
    rw [createOrUpdateFile]
    simp [hfalsy, hget, hprov, hnone]
  · intro hpost
    rw [createNewFileForGitee]
    simp [hpost]
  · intro hpost hctu
    rw [createNewFileForGitee]
    simp [hpost, hctu]
  · intro hpost hctu
    rw [createNewFileForGitee]
    cases hput : tryPutWithEmptySha cfg o path message (encodeContent content) s2 with
    | mk rc s3 =>
      cases rc <;> simp [hpost, hctu, hput]

/-- C4 witness: an all-rejecting oracle walks the whole chain; a fresh state
with a falsy sha and a failed read delegates to the chain. -/
theorem claim_C4_witness :
    (createOrUpdateFile ⟨Provider.gitee, "t", "o", "r", some "master"⟩
        (fun _ => ⟨false, "", "e"⟩) "p" "x" "m" none ⟨[], 0, []⟩
      = createNewFileForGitee ⟨Provider.gitee, "t", "o", "r", some "master"⟩
          (fun _ => ⟨false, "", "e"⟩) "p" "x" "m"
          (getFileContent ⟨Provider.gitee, "t", "o", "r", some "master"⟩
            (fun _ => ⟨false, "", "e"⟩) "p" ⟨[], 0, []⟩).2)
    ∧ (createNewFileForGitee ⟨Provider.gitee, "t", "o", "r", some "master"⟩
        (fun _ => ⟨false, "", "e"⟩) "p" "x" "m" ⟨[], 0, []⟩
      = tryPutWithEmptySha ⟨Provider.gitee, "t", "o", "r", some "master"⟩
          (fun _ => ⟨false, "", "e"⟩) "p" "m" (encodeContent "x")
          (tryCreateThenUpdate ⟨Provider.gitee, "t", "o", "r", some "master"⟩
            (fun _ => ⟨false, "", "e"⟩) "p" "m" (encodeContent "x")
            (tryPostCreate ⟨Provider.gitee, "t", "o", "r", some "master"⟩
              (fun _ => ⟨false, "", "e"⟩) "p" "m" (encodeContent "x") ⟨[], 0, []⟩).2).2) :=
  ⟨(claim_C4 ⟨Provider.gitee, "t", "o", "r", some "master"⟩ (fun _ => ⟨false, "", "e"⟩)
      "p" "x" "m" none ⟨[], 0, []⟩
      (getFileContent ⟨Provider.gitee, "t", "o", "r", some "master"⟩
        (fun _ => ⟨false, "", "e"⟩) "p" ⟨[], 0, []⟩).2
      (getFileContent ⟨Provider.gitee, "t", "o", "r", some "master"⟩
        (fun _ => ⟨false, "", "e"⟩) "p" ⟨[], 0, []⟩).2).1 rfl rfl (by rfl),
    (claim_C4 ⟨Provider.gitee, "t", "o", "r", some "master"⟩ (fun _ => ⟨false, "", "e"⟩)
      "p" "x" "m" none ⟨[], 0, []⟩
      (tryPostCreate ⟨Provider.gitee, "t", "o", "r", some "master"⟩
        (fun _ => ⟨false, "", "e"⟩) "p" "m" (encodeContent "x") ⟨[], 0, []⟩).2
      (tryCreateThenUpdate ⟨Provider.gitee, "t", "o", "r", some "master"⟩
        (fun _ => ⟨false, "", "e"⟩) "p" "m" (encodeContent "x")
        (tryPostCreate ⟨Provider.gitee, "t", "o", "r", some "master"⟩
          (fun _ => ⟨false, "", "e"⟩) "p" "m" (encodeContent "x") ⟨[], 0, []⟩).2).2).2.2.2
      (by rfl) (by rfl)⟩

/-- PUT requests of a trace. -/
def isPutReq : Request → Bool
  | .put _ _ => true
  | _ => false

def putCount (l : List Request) : Nat := (l.filter isPutReq).length

/-- `serve` on a PUT, spelled out. -/
theorem serve_put (o : Oracle) (e : String) (b : PutBody) (s : NetState) :
    serve o (.put e b) s
      = if (o s.idx).ok then
          (.okWrite (o s.idx).newSha,
            { remote := aset s.remote (routePath e) ⟨b.content, (o s.idx).newSha⟩,
              idx := s.idx + 1, trace := s.trace ++ [.put e b] })
        else (.err (o s.idx).errText,
          { s with idx := s.idx + 1, trace := s.trace ++ [.put e b] }) := by
  rw [serve]

/-- `serve` on a GET leaves the store untouched and logs the request. -/
theorem serve_get_state (o : Oracle) (e : String) (s : NetState) :
    (serve o (.get e) s).2 = { s with idx := s.idx + 1, trace := s.trace ++ [.get e] } := by
  rw [serve]
  split
  · split <;> rfl
  · rfl

/-- `getFileContent` advances the index by one, appends exactly its GET
request to the trace, and leaves the remote store untouched. -/
theorem getFileContent_state (cfg : GitConfig) (o : Oracle) (path : String) (s : NetState) :
    (getFileContent cfg o path s).2.idx = s.idx + 1
    ∧ (getFileContent cfg o path s).2.trace
        = s.trace ++ [Request.get (contentsEndpoint cfg path ++ "?ref=" ++ jsOr cfg.branch "main")]
    ∧ (getFileContent cfg o path s).2.remote = s.remote := by
  rw [getFileContent]
  cases hs : serve o (.get (contentsEndpoint cfg path ++ "?ref=" ++ jsOr cfg.branch "main")) s with
  | mk resp s1 =>
    have h1 : s1 =
        { s with
          idx := s.idx + 1
          trace := s.trace
            ++ [Request.get (contentsEndpoint cfg path ++ "?ref=" ++ jsOr cfg.branch "main")] } := by
      have h := serve_get_state o (contentsEndpoint cfg path ++ "?ref=" ++ jsOr cfg.branch "main") s
      rw [hs] at h
      exact h
    subst h1
    cases resp with
    | okGet content sha =>
      simp only [hs]
      by_cases hc : content = ""
      · simp [hc]
      · cases hd : decodeContent content <;> simp [hc, hd]
    | okWrite sha => simp [hs]
    | okDelete => simp [hs]
    | err m => simp [hs]

theorem putCount_append (l1 l2 : List Request) :
    putCount (l1 ++ l2) = putCount l1 + putCount l2 := by
  simp [putCount, List.filter_append]

theorem putCount_one_put (e : String) (b : PutBody) : putCount [Request.put e b] = 1 := rfl

theorem putCount_one_get (e : String) : putCount [Request.get e] = 0 := rfl

/-- C5 (amended): the write tail of `createOrUpdateFile` issues at most two
PUT requests; an accepted first write succeeds after exactly one PUT; a
github run never issues more than one PUT; a rejection without the `sha`
conflict signal fails after exactly one PUT; and whenever two PUTs happen
the run was a gitee rejection with the `sha` signal whose refetch succeeded,
and the retried write's verdict is reported as-is — the original claim's
unconditional single retry does not hold, because a failing refetch ends the
run after one PUT with no retry (see the counterexample). -/
theorem claim_C5 (cfg : GitConfig) (o : Oracle) (path ec message : String)
    (sha : Option String) (s : NetState) :
    putCount (couMainWrite cfg o path ec message sha s).2.trace ≤ putCount s.trace + 2
    ∧ ((o s.idx).ok = true →
        putCount (couMainWrite cfg o path ec message sha s).2.trace = putCount s.trace + 1
        ∧ (couMainWrite cfg o path ec message sha s).1 = true)
    ∧ (cfg.provider = .github →
        putCount (couMainWrite cfg o path ec message sha s).2.trace = putCount s.trace + 1)
    ∧ ((o s.idx).ok = false → strContainsSub (o s.idx).errText "sha" = false →
        putCount (couMainWrite cfg o path ec message sha s).2.trace = putCount s.trace + 1
        ∧ (couMainWrite cfg o path ec message sha s).1 = false)
    ∧ (putCount (couMainWrite cfg o path ec message sha s).2.trace = putCount s.trace + 2 →
        cfg.provider = .gitee ∧ (o s.idx).ok = false
        ∧ strContainsSub (o s.idx).errText "sha" = true
        ∧ (couMainWrite cfg o path ec message sha s).1 = (o (s.idx + 2)).ok) := by
  rw [couMainWrite.eq_def]
  simp only []
  generalize hB : (⟨message, ec,
      jsOr cfg.branch (if cfg.provider = Provider.gitee then "master" else "main"),
      match sha with
      | some sh => if sh.trim ≠ "" then some sh else none
      | none => none⟩ : PutBody) = B
  rw [serve_put o (contentsEndpoint cfg path) B s]
  by_cases h0 : (o s.idx).ok = true
  · rw [if_pos h0]
    dsimp only []
    refine ⟨?_, fun _ => ⟨?_, rfl⟩, fun _ => ?_,
      fun h _ => absurd (h0.symm.trans h) (by decide), ?_⟩
    · simp only [putCount_append, putCount_one_put]
      omega
    · simp only [putCount_append, putCount_one_put]
    · simp only [putCount_append, putCount_one_put]
    · intro h
      simp only [putCount_append, putCount_one_put] at h
      exact absurd h (by omega)
  · rw [if_neg h0]
    have h0f : (o s.idx).ok = false := by
      cases hv : (o s.idx).ok
      · rfl
      · exact absurd hv h0
    dsimp only []
    generalize hS1 : ({ s with
        idx := s.idx + 1
        trace := s.trace ++ [Request.put (contentsEndpoint cfg path) B] } : NetState) = S1
    have hS1t : S1.trace = s.trace ++ [Request.put (contentsEndpoint cfg path) B] := by
      rw [← hS1]
    have hS1i : S1.idx = s.idx + 1 := by
      rw [← hS1]
    by_cases hc : cfg.provider = Provider.gitee ∧ strContainsSub (o s.idx).errText "sha" = true
    · rw [if_pos hc]
      cases hg : getFileContent cfg o path S1 with
      | mk fi s2 =>
        have hst := getFileContent_state cfg o path S1
        rw [hg] at hst
        dsimp only [] at hst
        obtain ⟨hs2i, hs2t, _⟩ := hst
        rw [hS1i] at hs2i
        rw [hS1t] at hs2t
        cases fi with
        | none =>
          dsimp only []
          refine ⟨?_, fun h => absurd h h0, fun _ => ?_, ?_, ?_⟩
          · simp only [hs2t, putCount_append, putCount_one_put, putCount_one_get]
            omega
          · simp only [hs2t, putCount_append, putCount_one_put, putCount_one_get]
          · intro _ hns
            exact absurd (hns.symm.trans hc.2) (by decide)
          · intro habs
            simp only [hs2t, putCount_append, putCount_one_put, putCount_one_get] at habs
            exact absurd habs (by omega)
        | some p =>
          obtain ⟨ctext, freshSha⟩ := p
          dsimp only []
          rw [serve_put o (contentsEndpoint cfg path)
            ⟨message, ec,
              jsOr cfg.branch (if cfg.provider = Provider.gitee then "master" else "main"),
              some freshSha⟩ s2]
          have hs2i2 : s2.idx = s.idx + 2 := by omega
          by_cases h2 : (o s2.idx).ok = true
          · rw [if_pos h2]
            dsimp only []
            simp only [hs2t, putCount_append, putCount_one_put, putCount_one_get]
            refine ⟨by omega, fun h => absurd h h0, ?_, ?_, ?_⟩
            · intro hgh
              exact absurd (hgh.symm.trans hc.1) (by decide)
            · intro _ hns
              exact absurd (hns.symm.trans hc.2) (by decide)
            · intro _
              refine ⟨hc.1, h0f, hc.2, ?_⟩
              rw [← hs2i2]
              exact h2.symm
          · rw [if_neg h2]
            have h2f : (o s2.idx).ok = false := by
              cases hv : (o s2.idx).ok
              · rfl
              · exact absurd hv h2
            dsimp only []
            simp only [hs2t, putCount_append, putCount_one_put, putCount_one_get]
            refine ⟨by omega, fun h => absurd h h0, ?_, ?_, ?_⟩
            · intro hgh
              exact absurd (hgh.symm.trans hc.1) (by decide)
            · intro _ hns
              exact absurd (hns.symm.trans hc.2) (by decide)
            · intro _
              refine ⟨hc.1, h0f, hc.2, ?_⟩
              rw [← hs2i2]
              exact h2f.symm
    · rw [if_neg hc]
      dsimp only []
      refine ⟨?_, fun h => absurd h h0, fun _ => ?_, fun _ _ => ⟨?_, rfl⟩, ?_⟩
      · simp only [hS1t, putCount_append, putCount_one_put]
        omega
      · simp only [hS1t, putCount_append, putCount_one_put]
      · simp only [hS1t, putCount_append, putCount_one_put]
      · intro habs
        simp only [hS1t, putCount_append, putCount_one_put] at habs
        exact absurd habs (by omega)

/-- C5 counterexample: a gitee write rejected with a `sha` conflict whose
sha refetch finds nothing is not retried — the run ends in failure after
exactly one PUT, where the claim promised exactly one retry. -/
theorem claim_C5_counterexample :
    (couMainWrite ⟨Provider.gitee, "t", "o", "r", some "master"⟩
      (fun i => if i = 0 then ⟨false, "", "sha mismatch"⟩ else ⟨false, "", "e"⟩)
      "p" "ec" "m" (some "abc") ⟨[], 0, []⟩).1 = false
    ∧ putCount (couMainWrite ⟨Provider.gitee, "t", "o", "r", some "master"⟩
      (fun i => if i = 0 then ⟨false, "", "sha mismatch"⟩ else ⟨false, "", "e"⟩)
      "p" "ec" "m" (some "abc") ⟨[], 0, []⟩).2.trace = 1 := ⟨rfl, rfl⟩

/-- `serve` on a POST, spelled out. -/
theorem serve_post (o : Oracle) (e : String) (b : PostBody) (s : NetState) :
    serve o (.post e b) s
      = if (o s.idx).ok then
          (.okWrite (o s.idx).newSha,
            { remote := aset s.remote (routePath e) ⟨b.content, (o s.idx).newSha⟩,
              idx := s.idx + 1, trace := s.trace ++ [.post e b] })
        else (.err (o s.idx).errText,
          { s with idx := s.idx + 1, trace := s.trace ++ [.post e b] }) := by
  rw [serve]

/-- A failed POST creation leaves the remote store untouched. -/
theorem tryPostCreate_fail (cfg : GitConfig) (o : Oracle) (path message ec : String)
    (s : NetState) :
    (tryPostCreate cfg o path message ec s).1 = false →
    (tryPostCreate cfg o path message ec s).2.remote = s.remote := by
  rw [tryPostCreate.eq_def]
  simp only []
  rw [serve_post o (contentsEndpoint cfg path) ⟨message, ec, jsOr cfg.branch "master"⟩ s]
  by_cases h0 : (o s.idx).ok = true
  · rw [if_pos h0]
    intro h
    exact Bool.noConfusion h
  · rw [if_neg h0]
    intro _
    rfl

/-- A failed empty-sha write leaves the remote store untouched. -/
theorem tryPutWithEmptySha_fail (cfg : GitConfig) (o : Oracle) (path message ec : String)
    (s : NetState) :
    (tryPutWithEmptySha cfg o path message ec s).1 = false →
    (tryPutWithEmptySha cfg o path message ec s).2.remote = s.remote := by
  rw [tryPutWithEmptySha.eq_def]
  simp only []
  rw [serve_put o (contentsEndpoint cfg path) ⟨message, ec, jsOr cfg.branch "master", some ""⟩ s]
  by_cases h0 : (o s.idx).ok = true
  · rw [if_pos h0]
    intro h
    exact Bool.noConfusion h
  · rw [if_neg h0]
    intro _
    rfl

/-- A failed main write (with its possible gitee retry) leaves the remote
store untouched. -/
theorem couMainWrite_fail (cfg : GitConfig) (o : Oracle) (path ec message : String)
    (sha : Option String) (s : NetState) :
    (couMainWrite cfg o path ec message sha s).1 = false →
    (couMainWrite cfg o path ec message sha s).2.remote = s.remote := by
  rw [couMainWrite.eq_def]
  simp only []
  generalize hB : (⟨message, ec,
      jsOr cfg.branch (if cfg.provider = Provider.gitee then "master" else "main"),
      match sha with
      | some sh => if sh.trim ≠ "" then some sh else none
      | none => none⟩ : PutBody) = B
  rw [serve_put o (contentsEndpoint cfg path) B s]
  by_cases h0 : (o s.idx).ok = true
  · rw [if_pos h0]
    intro h
    exact Bool.noConfusion h
  · rw [if_neg h0]
    dsimp only []
    generalize hS1 : ({ s with
        idx := s.idx + 1
        trace := s.trace ++ [Request.put (contentsEndpoint cfg path) B] } : NetState) = S1
    have hS1r : S1.remote = s.remote := by
      rw [← hS1]
    by_cases hc : cfg.provider = Provider.gitee ∧ strContainsSub (o s.idx).errText "sha" = true
    · rw [if_pos hc]
      cases hg : getFileContent cfg o path S1 with
      | mk fi s2 =>
        have hst := getFileContent_state cfg o path S1
        rw [hg] at hst
        dsimp only [] at hst
        have hs2r : s2.remote = s.remote := by
          rw [hst.2.2, hS1r]
        cases fi with
        | none =>
          intro _
          exact hs2r
        | some p =>
          obtain ⟨ctext, freshSha⟩ := p
          dsimp only []
          rw [serve_put o (contentsEndpoint cfg path)
            ⟨message, ec,
              jsOr cfg.branch (if cfg.provider = Provider.gitee then "master" else "main"),
              some freshSha⟩ s2]
          by_cases h2 : (o s2.idx).ok = true
          · rw [if_pos h2]
            intro h
            exact Bool.noConfusion h
          · rw [if_neg h2]
            intro _
            exact hs2r
    · rw [if_neg hc]
      intro _
      exact hS1r

/-- A failed placeholder-then-update either left the remote untouched (the
placeholder write itself was rejected) or left behind the empty placeholder
file (the placeholder write landed and the update was rejected, or the
placeholder came back with an empty sha). -/
theorem tryCreateThenUpdate_fail (cfg : GitConfig) (o : Oracle) (path message ec : String)
    (s : NetState) :
    (tryCreateThenUpdate cfg o path message ec s).1 = false →
    (tryCreateThenUpdate cfg o path message ec s).2.remote = s.remote
    ∨ ∃ sh, (tryCreateThenUpdate cfg o path message ec s).2.remote
        = aset s.remote (routePath (contentsEndpoint cfg path)) ⟨encodeContent "", sh⟩ := by
  rw [tryCreateThenUpdate.eq_def]
  simp only []
  rw [serve_put o (contentsEndpoint cfg path)
    ⟨"初始化文件: " ++ path, encodeContent "", jsOr cfg.branch "master", none⟩ s]
  by_cases h0 : (o s.idx).ok = true
  · rw [if_pos h0]
    dsimp only []
    generalize hS1 : ({
        remote := aset s.remote (routePath (contentsEndpoint cfg path))
          ⟨encodeContent "", (o s.idx).newSha⟩
        idx := s.idx + 1
        trace := s.trace ++ [Request.put (contentsEndpoint cfg path)
          ⟨"初始化文件: " ++ path, encodeContent "", jsOr cfg.branch "master", none⟩] }
        : NetState) = S1
    have hS1r : S1.remote
        = aset s.remote (routePath (contentsEndpoint cfg path))
            ⟨encodeContent "", (o s.idx).newSha⟩ := by
      rw [← hS1]
    by_cases hcs : (o s.idx).newSha ≠ ""
    · rw [if_pos hcs]
      rw [serve_put o (contentsEndpoint cfg path)
        ⟨message, ec, jsOr cfg.branch "master", some (o s.idx).newSha⟩ S1]
      by_cases h2 : (o S1.idx).ok = true
      · rw [if_pos h2]
        intro h
        exact Bool.noConfusion h
      · rw [if_neg h2]
        intro _
        exact Or.inr ⟨(o s.idx).newSha, hS1r⟩
    · rw [if_neg hcs]
      intro _
      exact Or.inr ⟨(o s.idx).newSha, hS1r⟩
  · rw [if_neg h0]
    intro _
    exact Or.inl rfl

/-- A failed creation chain leaves the remote untouched or leaves exactly the
empty placeholder behind. -/
theorem createNewFileForGitee_fail (cfg : GitConfig) (o : Oracle)
    (path content message : String) (s : NetState) :
    (createNewFileForGitee cfg o path content message s).1 = false →
    (createNewFileForGitee cfg o path content message s).2.remote = s.remote
    ∨ ∃ sh, (createNewFileForGitee cfg o path content message s).2.remote
        = aset s.remote (routePath (contentsEndpoint cfg path)) ⟨encodeContent "", sh⟩ := by
  rw [createNewFileForGitee.eq_def]
  simp only []
  cases ha : tryPostCreate cfg o path message (encodeContent content) s with
  | mk ra s1 =>
    have hpost := tryPostCreate_fail cfg o path message (encodeContent content) s
    rw [ha] at hpost
    dsimp only [] at hpost
    cases ra with
    | true =>
      intro h
      exact Bool.noConfusion h
    | false =>
      have h1r : s1.remote = s.remote := hpost rfl
      dsimp only []
      cases hb : tryCreateThenUpdate cfg o path message (encodeContent content) s1 with
      | mk rb s2 =>
        have hctu := tryCreateThenUpdate_fail cfg o path message (encodeContent content) s1
        rw [hb] at hctu
        dsimp only [] at hctu
        cases rb with
        | true =>
          intro h
          exact Bool.noConfusion h
        | false =>
          have h2r := hctu rfl
          dsimp only []
          cases hcr : tryPutWithEmptySha cfg o path message (encodeContent content) s2 with
          | mk rc s3 =>
            have hput := tryPutWithEmptySha_fail cfg o path message (encodeContent content) s2
            rw [hcr] at hput
            dsimp only [] at hput
            cases rc with
            | true =>
              intro h
              exact Bool.noConfusion h
            | false =>
              have h3r : s3.remote = s2.remote := hput rfl
              intro _
              cases h2r with
              | inl h =>
                exact Or.inl (show s3.remote = s.remote by rw [h3r, h, h1r])
              | inr h =>
                obtain ⟨sh, h⟩ := h
                refine Or.inr ⟨sh, show s3.remote
                  = aset s.remote (routePath (contentsEndpoint cfg path))
                      ⟨encodeContent "", sh⟩ from ?_⟩
                rw [h3r, h, h1r]

/-- A failed `createOrUpdateFile` leaves the remote untouched or leaves
exactly the empty placeholder of the gitee creation chain behind. -/
theorem createOrUpdateFile_fail (cfg : GitConfig) (o : Oracle)
    (path content message : String) (existingSha : Option String) (s : NetState) :
    (createOrUpdateFile cfg o path content message existingSha s).1 = false →
    (createOrUpdateFile cfg o path content message existingSha s).2.remote = s.remote
    ∨ ∃ sh, (createOrUpdateFile cfg o path content message existingSha s).2.remote
        = aset s.remote (routePath (contentsEndpoint cfg path)) ⟨encodeContent "", sh⟩ := by
  rw [createOrUpdateFile.eq_def]
  simp only []
  by_cases hf : jsFalsyStr existingSha = true
  · rw [if_pos hf]
    cases hg : getFileContent cfg o path s with
    | mk ex s1 =>
      have hst := getFileContent_state cfg o path s
      rw [hg] at hst
      dsimp only [] at hst
      have h1r : s1.remote = s.remote := hst.2.2
      dsimp only []
      by_cases hcond : jsFalsyStr (Option.map (fun p => p.2) ex) = true
          ∧ cfg.provider = Provider.gitee
      · rw [if_pos hcond]
        intro h
        cases createNewFileForGitee_fail cfg o path content message s1 h with
        | inl hh => exact Or.inl (by rw [hh, h1r])
        | inr hh =>
          obtain ⟨sh, hh⟩ := hh
          refine Or.inr ⟨sh, ?_⟩
          rw [hh, h1r]
      · rw [if_neg hcond]
        intro h
        exact Or.inl (by rw [couMainWrite_fail cfg o path (encodeContent content) message
          (Option.map (fun p => p.2) ex) s1 h, h1r])
  · rw [if_neg hf]
    dsimp only []
    by_cases hcond : jsFalsyStr existingSha = true ∧ cfg.provider = Provider.gitee
    · rw [if_pos hcond]
      intro h
      exact createNewFileForGitee_fail cfg o path content message s h
    · rw [if_neg hcond]
      intro h
      exact Or.inl (couMainWrite_fail cfg o path (encodeContent content) message
        existingSha s h)

/-- C1 (amended): a push that reports failure leaves the remote repository
untouched — except through the gitee creation chain's placeholder strategy,
which can leave exactly one remote file holding the encoded empty string
behind; no failed push ever stores the module's data remotely in any other
shape (the original all-or-nothing wording is refuted by the placeholder,
see the counterexample). -/
theorem claim_C1 (md5 : String → String) (cfg : GitConfig) (o : Oracle) (now : String)
    (m : DataModule) (st : SyncState) :
    (syncModuleToCloud md5 cfg o now m st).1 = false →
    (syncModuleToCloud md5 cfg o now m st).2.net.remote = st.net.remote
    ∨ ∃ sh, (syncModuleToCloud md5 cfg o now m st).2.net.remote
        = aset st.net.remote (routePath (contentsEndpoint cfg ("sync-" ++ m.filename)))
            ⟨encodeContent "", sh⟩ := by
  rw [syncModuleToCloud.eq_def]
  simp only []
  cases hg : getFileContent cfg o ("sync-" ++ m.filename) st.net with
  | mk existing net1 =>
    have hst := getFileContent_state cfg o ("sync-" ++ m.filename) st.net
    rw [hg] at hst
    dsimp only [] at hst
    have h1r : net1.remote = st.net.remote := hst.2.2
    dsimp only []
    cases hcu : createOrUpdateFile cfg o ("sync-" ++ m.filename)
        (stringifyPretty (syncEnvelope md5 now (getData st m)))
        ("更新" ++ m.name ++ "数据 - " ++ now)
        (Option.map (fun p => p.2) existing) net1 with
    | mk success net2 =>
      have hcou := createOrUpdateFile_fail cfg o ("sync-" ++ m.filename)
        (stringifyPretty (syncEnvelope md5 now (getData st m)))
        ("更新" ++ m.name ++ "数据 - " ++ now)
        (Option.map (fun p => p.2) existing) net1
      rw [hcu] at hcou
      dsimp only [] at hcou
      cases success with
      | true =>
        intro h
        exact Bool.noConfusion h
      | false =>
        intro _
        cases hcou rfl with
        | inl hh =>
          exact Or.inl (show net2.remote = st.net.remote by rw [hh, h1r])
        | inr hh =>
          obtain ⟨sh, hh⟩ := hh
          refine Or.inr ⟨sh, show net2.remote
            = aset st.net.remote
                (routePath (contentsEndpoint cfg ("sync-" ++ m.filename)))
                ⟨encodeContent "", sh⟩ from ?_⟩
          rw [hh, h1r]

/-- C1 counterexample: on gitee, with every request rejected except the
placeholder write, the push reports failure yet the remote repository now
holds a file — the empty placeholder — so a failed push is not
all-or-nothing. -/
theorem claim_C1_counterexample :
    (syncModuleToCloud (fun _ => "h") ⟨Provider.gitee, "t", "o", "r", some "master"⟩
      (fun i => if i = 3 then ⟨true, "s1", ""⟩ else ⟨false, "", "err"⟩) "now"
      ⟨"tasks", "tasks.json"⟩ ⟨[], [("tasks", Json.null)], [], ⟨[], 0, []⟩⟩).1 = false
    ∧ (syncModuleToCloud (fun _ => "h") ⟨Provider.gitee, "t", "o", "r", some "master"⟩
      (fun i => if i = 3 then ⟨true, "s1", ""⟩ else ⟨false, "", "err"⟩) "now"
      ⟨"tasks", "tasks.json"⟩ ⟨[], [("tasks", Json.null)], [], ⟨[], 0, []⟩⟩).2.net.remote
        = [("repos/o/r/contents/sync-tasks.json", ⟨encodeContent "", "s1"⟩)] := ⟨rfl, rfl⟩

/-- C1 witness: the amended theorem applied to the counterexample's run. -/
theorem claim_C1_witness :
    (syncModuleToCloud (fun _ => "h") ⟨Provider.gitee, "t", "o", "r", some "master"⟩
      (fun i => if i = 3 then ⟨true, "s1", ""⟩ else ⟨false, "", "err"⟩) "now"
      ⟨"tasks", "tasks.json"⟩ ⟨[], [("tasks", Json.null)], [], ⟨[], 0, []⟩⟩).2.net.remote
        = ([] : List (String × ServerFile))
    ∨ ∃ sh, (syncModuleToCloud (fun _ => "h") ⟨Provider.gitee, "t", "o", "r", some "master"⟩
      (fun i => if i = 3 then ⟨true, "s1", ""⟩ else ⟨false, "", "err"⟩) "now"
      ⟨"tasks", "tasks.json"⟩ ⟨[], [("tasks", Json.null)], [], ⟨[], 0, []⟩⟩).2.net.remote
        = aset ([] : List (String × ServerFile))
            (routePath (contentsEndpoint ⟨Provider.gitee, "t", "o", "r", some "master"⟩
              ("sync-" ++ "tasks.json")))
            ⟨encodeContent "", sh⟩ :=
  claim_C1 (fun _ => "h") ⟨Provider.gitee, "t", "o", "r", some "master"⟩
    (fun i => if i = 3 then ⟨true, "s1", ""⟩ else ⟨false, "", "err"⟩) "now"
    ⟨"tasks", "tasks.json"⟩ ⟨[], [("tasks", Json.null)], [], ⟨[], 0, []⟩⟩ (by rfl)

/-- A `takeWhile` that keeps a whole prefix stops at the head of the rest. -/
theorem takeWhile_self_append (p : Char → Bool) (l1 l2 : List Char)
    (h : l1.takeWhile p = l1) (hhd : ∀ c t, l2 = c :: t → p c = false) :
    (l1 ++ l2).takeWhile p = l1 := by
  induction l1 with
  | nil =>
    cases hl2 : l2 with
    | nil => rfl
    | cons c t =>
      simp [List.takeWhile_cons, hhd c t hl2]
  | cons a l ih =>
    rw [List.takeWhile_cons] at h
    by_cases hpa : p a = true
    · rw [if_pos hpa] at h
      have hl : l.takeWhile p = l := by
        have hcons := h
        simp only [List.cons.injEq] at hcons
        exact hcons.2
      simp [List.takeWhile_cons, hpa, ih hl]
    · rw [if_neg hpa] at h
      exact absurd h.symm (List.cons_ne_nil a l)

/-- Appending a query string does not change the routed path. -/
theorem routePath_query (ep b : String) (h : routePath ep = ep) :
    routePath (ep ++ "?ref=" ++ b) = ep := by
  have hd : ep.data.takeWhile (fun c => c ≠ '?') = ep.data := congrArg String.data h
  rw [routePath]
  have hdata : (ep ++ "?ref=" ++ b).data = ep.data ++ ('?' :: ("ref=" ++ b).data) := by
    simp [List.append_assoc]
  have hstop : ∀ c t, ('?' :: ("ref=" ++ b).data) = c :: t →
      (fun c => (decide (c ≠ '?') : Bool)) c = false := by
    intro c t hct
    simp only [List.cons.injEq] at hct
    rw [← hct.1]
    decide
  rw [hdata, takeWhile_self_append _ _ _ hd hstop]

/-- A printed JSON value is never the empty string. -/
theorem stringifyPretty_ne_empty (v : Json) : stringifyPretty v ≠ "" := by
  obtain ⟨c, cs, h, _, _, _⟩ := printVal_head 0 v
  rw [stringifyPretty, h]
  intro hcon
  have hdd : (String.mk (c :: cs)).data = ("" : String).data := by rw [hcon]
  simp at hdd

/-- The envelope's `data` field is the pushed value itself. -/
theorem jget_syncEnvelope (md5 : String → String) (now : String) (D : Json) :
    jget (syncEnvelope md5 now D) "data" = D := rfl

/-- `getFileContent` when the oracle accepts and the file is absent. -/
theorem getFileContent_absent (cfg : GitConfig) (o : Oracle) (path : String) (s : NetState)
    (hok : (o s.idx).ok = true)
    (habs : aget s.remote
      (routePath (contentsEndpoint cfg path ++ "?ref=" ++ jsOr cfg.branch "main")) = none) :
    getFileContent cfg o path s
      = (none,
        { s with
          idx := s.idx + 1
          trace := s.trace
            ++ [Request.get (contentsEndpoint cfg path
                  ++ "?ref=" ++ jsOr cfg.branch "main")] }) := by
  rw [getFileContent, serve]
  simp only [hok, if_pos rfl, habs]
  simp

/-- `getFileContent` when the oracle accepts and the file is present with
decodable non-empty content. -/
theorem getFileContent_present (cfg : GitConfig) (o : Oracle) (path : String) (s : NetState)
    (f : ServerFile) (txt : String)
    (hok : (o s.idx).ok = true)
    (hfile : aget s.remote
      (routePath (contentsEndpoint cfg path ++ "?ref=" ++ jsOr cfg.branch "main")) = some f)
    (hne : f.content ≠ "")
    (hdec : decodeContent f.content = some txt) :
    getFileContent cfg o path s
      = (some (txt, f.sha),
        { s with
          idx := s.idx + 1
          trace := s.trace
            ++ [Request.get (contentsEndpoint cfg path
                  ++ "?ref=" ++ jsOr cfg.branch "main")] }) := by
  rw [getFileContent, serve]
  simp only [hok, if_pos rfl, hfile]
  simp [hne, hdec]

/-- An accepted POST creation stores the body and succeeds. -/
theorem tryPostCreate_ok (cfg : GitConfig) (o : Oracle) (path message ec : String)
    (s : NetState) (hok : (o s.idx).ok = true) :
    (tryPostCreate cfg o path message ec s).1 = true
    ∧ (tryPostCreate cfg o path message ec s).2.remote
        = aset s.remote (routePath (contentsEndpoint cfg path)) ⟨ec, (o s.idx).newSha⟩ := by
  rw [tryPostCreate.eq_def]
  simp only []
  rw [serve_post o (contentsEndpoint cfg path) ⟨message, ec, jsOr cfg.branch "master"⟩ s]
  rw [if_pos hok]
  exact ⟨rfl, rfl⟩

/-- An accepted first PUT of the main write stores the body and succeeds. -/
theorem couMainWrite_ok (cfg : GitConfig) (o : Oracle) (path ec message : String)
    (sha : Option String) (s : NetState) (hok : (o s.idx).ok = true) :
    (couMainWrite cfg o path ec message sha s).1 = true
    ∧ (couMainWrite cfg o path ec message sha s).2.remote
        = aset s.remote (routePath (contentsEndpoint cfg path)) ⟨ec, (o s.idx).newSha⟩ := by
  rw [couMainWrite.eq_def]
  simp only []
  generalize hB : (⟨message, ec,
      jsOr cfg.branch (if cfg.provider = Provider.gitee then "master" else "main"),
      match sha with
      | some sh => if sh.trim ≠ "" then some sh else none
      | none => none⟩ : PutBody) = B
  rw [serve_put o (contentsEndpoint cfg path) B s]
  rw [if_pos hok]
  constructor
  · rfl
  · show (aset s.remote (routePath (contentsEndpoint cfg path)) ⟨B.content, (o s.idx).newSha⟩)
      = aset s.remote (routePath (contentsEndpoint cfg path)) ⟨ec, (o s.idx).newSha⟩
    rw [← hB]

/-- An accepted creation chain succeeds on its first strategy, storing the
encoded content. -/
theorem createNewFileForGitee_ok (cfg : GitConfig) (o : Oracle)
    (path content message : String) (s : NetState) (hok : (o s.idx).ok = true) :
    (createNewFileForGitee cfg o path content message s).1 = true
    ∧ (createNewFileForGitee cfg o path content message s).2.remote
        = aset s.remote (routePath (contentsEndpoint cfg path))
            ⟨encodeContent content, (o s.idx).newSha⟩ := by
  rw [createNewFileForGitee.eq_def]
  simp only []
  cases ha : tryPostCreate cfg o path message (encodeContent content) s with
  | mk ra s1 =>
    have hpc := tryPostCreate_ok cfg o path message (encodeContent content) s hok
    rw [ha] at hpc
    dsimp only [] at hpc
    cases ra with
    | false => exact absurd hpc.1 (by decide)
    | true => exact ⟨rfl, hpc.2⟩

/-- `createOrUpdateFile` for a brand-new file under an all-accepting oracle:
it succeeds and stores the encoded content at the routed path, on either
provider. -/
theorem createOrUpdateFile_new (cfg : GitConfig) (o : Oracle)
    (path content message : String) (s : NetState) (sha : String)
    (hoall : ∀ i, o i = ⟨true, sha, ""⟩)
    (hroute : routePath (contentsEndpoint cfg path) = contentsEndpoint cfg path)
    (habs : aget s.remote (contentsEndpoint cfg path) = none) :
    (createOrUpdateFile cfg o path content message none s).1 = true
    ∧ (createOrUpdateFile cfg o path content message none s).2.remote
        = aset s.remote (contentsEndpoint cfg path) ⟨encodeContent content, sha⟩ := by
  have habsq : aget s.remote
      (routePath (contentsEndpoint cfg path ++ "?ref=" ++ jsOr cfg.branch "main")) = none := by
    rw [routePath_query _ _ hroute]
    exact habs
  have hok : ∀ s' : NetState, (o s'.idx).ok = true := by
    intro s'
    rw [hoall]
  have hsha : ∀ i, (o i).newSha = sha := by
    intro i
    rw [hoall]
  rw [createOrUpdateFile.eq_def]
  simp only []
  rw [if_pos (by decide : jsFalsyStr (none : Option String) = true)]
  rw [getFileContent_absent cfg o path s (hok s) habsq]
  dsimp only [Option.map]
  by_cases hp : cfg.provider = Provider.gitee
  · rw [if_pos ⟨by decide, hp⟩]
    have h := createNewFileForGitee_ok cfg o path content message
      { s with
        idx := s.idx + 1
        trace := s.trace
          ++ [Request.get (contentsEndpoint cfg path
                ++ "?ref=" ++ jsOr cfg.branch "main")] } (hok _)
    refine ⟨h.1, ?_⟩
    rw [h.2, hroute, hsha]
  · rw [if_neg (fun hcc => hp hcc.2)]
    have h := couMainWrite_ok cfg o path (encodeContent content) message none
      { s with
        idx := s.idx + 1
        trace := s.trace
          ++ [Request.get (contentsEndpoint cfg path
                ++ "?ref=" ++ jsOr cfg.branch "main")] } (hok _)
    refine ⟨h.1, ?_⟩
    rw [h.2, hroute, hsha]

/-- C3: pushing a module's value and then pulling it back (all requests
accepted, file initially absent, query-free endpoint) succeeds in both
directions and hands the module's write exactly the pushed value: the JSON
envelope and the base64/UTF-8 transport round-trip losslessly, multi-byte
text included. -/
theorem claim_C3 (md5 : String → String) (cfg : GitConfig) (now sha : String)
    (m : DataModule) (st : SyncState) (D : Json)
    (hroute : routePath (contentsEndpoint cfg ("sync-" ++ m.filename))
      = contentsEndpoint cfg ("sync-" ++ m.filename))
    (hdata : aget st.localData m.name = some D)
    (habs : aget st.net.remote (contentsEndpoint cfg ("sync-" ++ m.filename)) = none) :
    (syncModuleToCloud md5 cfg (fun _ => ⟨true, sha, ""⟩) now m st).1 = true
    ∧ (syncModuleFromCloud md5 cfg (fun _ => ⟨true, sha, ""⟩) m
        (syncModuleToCloud md5 cfg (fun _ => ⟨true, sha, ""⟩) now m st).2).1 = true
    ∧ (syncModuleFromCloud md5 cfg (fun _ => ⟨true, sha, ""⟩) m
        (syncModuleToCloud md5 cfg (fun _ => ⟨true, sha, ""⟩) now m st).2).2.writes
      = st.writes ++ [(m.name, D)]
    ∧ aget (syncModuleFromCloud md5 cfg (fun _ => ⟨true, sha, ""⟩) m
        (syncModuleToCloud md5 cfg (fun _ => ⟨true, sha, ""⟩) now m st).2).2.localData m.name
      = some D := by
  have hgetD : getData st m = D := by
    rw [getData, hdata]
  have hoall : ∀ i : Nat, (fun _ => (⟨true, sha, ""⟩ : OracleResp)) i = ⟨true, sha, ""⟩ :=
    fun _ => rfl
  have hC := createOrUpdateFile_new cfg (fun _ => ⟨true, sha, ""⟩) ("sync-" ++ m.filename)
    (stringifyPretty (syncEnvelope md5 now (getData st m)))
    ("更新" ++ m.name ++ "数据 - " ++ now)
    { remote := st.net.remote
      idx := st.net.idx + 1
      trace := st.net.trace
        ++ [Request.get (contentsEndpoint cfg ("sync-" ++ m.filename)
              ++ "?ref=" ++ jsOr cfg.branch "main")] } sha hoall hroute habs
  rw [syncModuleToCloud.eq_def]
  simp only []
  rw [getFileContent_absent cfg (fun _ => ⟨true, sha, ""⟩) ("sync-" ++ m.filename) st.net rfl
    (by rw [routePath_query _ _ hroute]; exact habs)]
  dsimp only [Option.map]
  simp only [hC.1, if_true]
  rw [syncModuleFromCloud.eq_def]
  simp only []
  have hfile : aget (createOrUpdateFile cfg (fun _ => ⟨true, sha, ""⟩) ("sync-" ++ m.filename)
        (stringifyPretty (syncEnvelope md5 now (getData st m)))
        ("更新" ++ m.name ++ "数据 - " ++ now) none
        { remote := st.net.remote
          idx := st.net.idx + 1
          trace := st.net.trace
            ++ [Request.get (contentsEndpoint cfg ("sync-" ++ m.filename)
                  ++ "?ref=" ++ jsOr cfg.branch "main")] }).2.remote
      (routePath (contentsEndpoint cfg ("sync-" ++ m.filename)
        ++ "?ref=" ++ jsOr cfg.branch "main"))
      = some ⟨encodeContent (stringifyPretty (syncEnvelope md5 now (getData st m))), sha⟩ := by
    rw [routePath_query _ _ hroute, hC.2]
    exact aget_aset_self _ _ _
  rw [getFileContent_present cfg (fun _ => ⟨true, sha, ""⟩) ("sync-" ++ m.filename) _
    ⟨encodeContent (stringifyPretty (syncEnvelope md5 now (getData st m))), sha⟩
    (stringifyPretty (syncEnvelope md5 now (getData st m)))
    rfl hfile
    (encodeContent_ne_empty _ (stringifyPretty_ne_empty _))
    (decodeContent_encodeContent _)]
  dsimp only []
  rw [parseJson_stringify]
  dsimp only []
  rw [jget_syncEnvelope, hgetD]
  refine ⟨trivial, rfl, rfl, ?_⟩
  exact aget_aset_self _ _ _

/-- C3 witness: a github round trip of a multi-byte string value. -/
theorem claim_C3_witness :
    (syncModuleToCloud (fun _ => "h") ⟨Provider.github, "t", "o", "r", some "main"⟩
      (fun _ => ⟨true, "s1", ""⟩) "now" ⟨"tasks", "tasks.json"⟩
      ⟨[], [("tasks", Json.str "héllo")], [], ⟨[], 0, []⟩⟩).1 = true
    ∧ (syncModuleFromCloud (fun _ => "h") ⟨Provider.github, "t", "o", "r", some "main"⟩
        (fun _ => ⟨true, "s1", ""⟩) ⟨"tasks", "tasks.json"⟩
        (syncModuleToCloud (fun _ => "h") ⟨Provider.github, "t", "o", "r", some "main"⟩
          (fun _ => ⟨true, "s1", ""⟩) "now" ⟨"tasks", "tasks.json"⟩
          ⟨[], [("tasks", Json.str "héllo")], [], ⟨[], 0, []⟩⟩).2).1 = true
    ∧ (syncModuleFromCloud (fun _ => "h") ⟨Provider.github, "t", "o", "r", some "main"⟩
        (fun _ => ⟨true, "s1", ""⟩) ⟨"tasks", "tasks.json"⟩
        (syncModuleToCloud (fun _ => "h") ⟨Provider.github, "t", "o", "r", some "main"⟩
          (fun _ => ⟨true, "s1", ""⟩) "now" ⟨"tasks", "tasks.json"⟩
          ⟨[], [("tasks", Json.str "héllo")], [], ⟨[], 0, []⟩⟩).2).2.writes
      = [] ++ [("tasks", Json.str "héllo")]
    ∧ aget (syncModuleFromCloud (fun _ => "h") ⟨Provider.github, "t", "o", "r", some "main"⟩
        (fun _ => ⟨true, "s1", ""⟩) ⟨"tasks", "tasks.json"⟩
        (syncModuleToCloud (fun _ => "h") ⟨Provider.github, "t", "o", "r", some "main"⟩
          (fun _ => ⟨true, "s1", ""⟩) "now" ⟨"tasks", "tasks.json"⟩
          ⟨[], [("tasks", Json.str "héllo")], [], ⟨[], 0, []⟩⟩).2).2.localData "tasks"
      = some (Json.str "héllo") :=
  claim_C3 (fun _ => "h") ⟨Provider.github, "t", "o", "r", some "main"⟩ "now" "s1"
    ⟨"tasks", "tasks.json"⟩ ⟨[], [("tasks", Json.str "héllo")], [], ⟨[], 0, []⟩⟩
    (Json.str "héllo") (by decide) rfl rfl

theorem aset_ne_nil {α : Type} (l : List (String × α)) (k : String) (v : α) :
    aset l k v ≠ [] := by
  cases l with
  | nil => simp [aset]
  | cons h t =>
    obtain ⟨k0, w⟩ := h
    rw [aset]
    split <;> simp

theorem initHashCache_cache_ne (md5 : String → String) (mods : List DataModule)
    (st : SyncState) (h : st.cache ≠ [] ∨ mods ≠ []) :
    (initHashCache md5 mods st).cache ≠ [] := by
  induction mods generalizing st with
  | nil =>
    cases h with
    | inl hh => exact hh
    | inr hh => exact absurd rfl hh
  | cons m rest ih =>
    rw [initHashCache, List.foldl_cons]
    exact ih _ (Or.inl (aset_ne_nil _ _ _))

/-- C7: `autoSync` seeds every baseline on a first (empty-cache) run and
then behaves as on the seeded state; per status entry it skips unknown
modules and modules with `needsSync = false` (neither push nor pull), pushes
exactly when local data changed since its baseline or the remote records no
hash, pulls otherwise, and emits exactly one action per known
`needsSync = true` entry. -/
theorem claim_C7 (md5 : String → String) (cfg : GitConfig) (o : Oracle) (now : String)
    (modules : List DataModule) :
    (∀ st : SyncState, st.cache = [] →
      autoSync md5 cfg o now modules st
        = autoSync md5 cfg o now modules (initHashCache md5 modules st))
    ∧ (∀ (status : SyncStatus) (rest : List SyncStatus) (st : SyncState),
        modules.find? (fun m => m.filename == status.filename) = none →
        autoSyncGo md5 cfg o now modules (status :: rest) st
          = autoSyncGo md5 cfg o now modules rest st)
    ∧ (∀ (status : SyncStatus) (rest : List SyncStatus) (st : SyncState) (m : DataModule),
        modules.find? (fun m => m.filename == status.filename) = some m →
        status.needsSync = false →
        autoSyncGo md5 cfg o now modules (status :: rest) st
          = autoSyncGo md5 cfg o now modules rest st)
    ∧ (∀ (status : SyncStatus) (rest : List SyncStatus) (st : SyncState) (m : DataModule),
        modules.find? (fun m => m.filename == status.filename) = some m →
        status.needsSync = true →
        ((hasDataChanged md5 m st).1 = true ∨ status.cloudHash = "") →
        ∃ res acts st3,
          autoSyncGo md5 cfg o now modules (status :: rest) st
            = ((m.name, (syncModuleToCloud md5 cfg o now m
                  (hasDataChanged md5 m st).2).1) :: res,
               SyncAction.pushA m.name :: acts, st3))
    ∧ (∀ (status : SyncStatus) (rest : List SyncStatus) (st : SyncState) (m : DataModule),
        modules.find? (fun m => m.filename == status.filename) = some m →
        status.needsSync = true →
        (hasDataChanged md5 m st).1 = false → status.cloudHash ≠ "" →
        ∃ res acts st3,
          autoSyncGo md5 cfg o now modules (status :: rest) st
            = ((m.name, (syncModuleFromCloud md5 cfg o m
                  (hasDataChanged md5 m st).2).1) :: res,
               SyncAction.pullA m.name :: acts, st3))
    ∧ (∀ (statusList : List SyncStatus) (st : SyncState),
        (autoSyncGo md5 cfg o now modules statusList st).2.1.length
          = (statusList.filter (fun status => status.needsSync
              && (modules.find? (fun m => m.filename == status.filename)).isSome)).length) := by
  refine ⟨?_, ?_, ?_, ?_, ?_, ?_⟩
  · intro st hc
    rw [autoSync, autoSync]
    have h1 : st.cache.isEmpty = true := by
      rw [hc]
      rfl
    cases hm : modules with
    | nil =>
      have h0 : initHashCache md5 [] st = st := rfl
      rw [h0, h0]
    | cons mm rest =>
      have hne := initHashCache_cache_ne md5 (mm :: rest) st (Or.inr (by simp))
      have h2 : (initHashCache md5 (mm :: rest) st).cache.isEmpty = false := by
        cases hcc : (initHashCache md5 (mm :: rest) st).cache with
        | nil => exact absurd hcc hne
        | cons a b => rfl
      rw [h1, h2]
      simp
  · intro status rest st hf
    rw [autoSyncGo]
    rw [hf]
  · intro status rest st m hf hn
    rw [autoSyncGo, hf]
    dsimp only []
    rw [if_pos hn]
  · intro status rest st m hf hn hpush
    rw [autoSyncGo, hf]
    dsimp only []
    rw [if_neg (fun hcon => Bool.noConfusion (hn.symm.trans hcon))]
    cases hhd : hasDataChanged md5 m st with
    | mk changed st1 =>
      dsimp only []
      have hb : (changed || (status.cloudHash == "")) = true := by
        cases hpush with
        | inl h =>
          rw [hhd] at h
          dsimp only [] at h
          simp [h]
        | inr h =>
          simp [h]
      rw [if_pos hb]
      cases hsm : syncModuleToCloud md5 cfg o now m st1 with
      | mk ok st2 =>
        cases hgo : autoSyncGo md5 cfg o now modules rest st2 with
        | mk res rest2 =>
          obtain ⟨acts, st3⟩ := rest2
          dsimp only []
          refine ⟨res, acts, st3, ?_⟩
          dsimp only []
  · intro status rest st m hf hn hnc hcloud
    rw [autoSyncGo, hf]
    dsimp only []
    rw [if_neg (fun hcon => Bool.noConfusion (hn.symm.trans hcon))]
    cases hhd : hasDataChanged md5 m st with
    | mk changed st1 =>
      dsimp only []
      have hch : changed = false := by
        rw [hhd] at hnc
        exact hnc
      have hb : (changed || (status.cloudHash == "")) = false := by
        simp [hch, hcloud]
      rw [hb]
      rw [if_neg (by simp)]
      cases hsm : syncModuleFromCloud md5 cfg o m st1 with
      | mk ok st2 =>
        cases hgo : autoSyncGo md5 cfg o now modules rest st2 with
        | mk res rest2 =>
          obtain ⟨acts, st3⟩ := rest2
          dsimp only []
          refine ⟨res, acts, st3, ?_⟩
          dsimp only []
  · intro statusList
    induction statusList with
    | nil =>
      intro st
      rw [autoSyncGo]
      rfl
    | cons status rest ih =>
      intro st
      rw [autoSyncGo]
      cases hf : modules.find? (fun m => m.filename == status.filename) with
      | none =>
        rw [List.filter_cons]
        simp only [hf]
        simp [ih st]
      | some m =>
        dsimp only []
        by_cases hn : status.needsSync = false
        · rw [if_pos hn]
          rw [List.filter_cons]
          simp [hn, ih st]
        · have hn' : status.needsSync = true := by
            cases hv : status.needsSync
            · exact absurd hv hn
            · rfl
          rw [if_neg hn]
          cases hhd : hasDataChanged md5 m st with
          | mk changed st1 =>
            dsimp only []
            by_cases hb : (changed || (status.cloudHash == "")) = true
            · rw [if_pos hb]
              cases hsm : syncModuleToCloud md5 cfg o now m st1 with
              | mk ok st2 =>
                cases hgo : autoSyncGo md5 cfg o now modules rest st2 with
                | mk res rest2 =>
                  obtain ⟨acts, st3⟩ := rest2
                  dsimp only []
                  have hlen := ih st2
                  rw [hgo] at hlen
                  dsimp only [] at hlen
                  rw [List.filter_cons]
                  simp [hn', hf, hlen]
            · rw [if_neg hb]
              cases hsm : syncModuleFromCloud md5 cfg o m st1 with
              | mk ok st2 =>
                cases hgo : autoSyncGo md5 cfg o now modules rest st2 with
                | mk res rest2 =>
                  obtain ⟨acts, st3⟩ := rest2
                  dsimp only []
                  have hlen := ih st2
                  rw [hgo] at hlen
                  dsimp only [] at hlen
                  rw [List.filter_cons]
                  simp [hn', hf, hlen]

end GitSync
